import Mathlib

/-!
# go-wikimedia: a verification development

A shallow embedding of `wikimedia.go` (the client constructor `New`, `Query` and `get`, and the
JSON result types with their field tags) together with the parts of the Go standard library
the client calls: `net/url` (`Parse`, `QueryEscape`, `Values.Encode`) and `net/http`
(`NewRequest`, `Header.Set`).  The HTTP client's `Do` method, the JSON reader and the
RFC 3339 time reader are collaborators of the program and are taken as parameters.

Go strings are byte sequences; a byte is a natural number (below 256 in every string Go
can build; no definition below depends on that bound except through the explicit `% 16`
in the hexadecimal digits).
-/

namespace GoWikimedia

/-! ## Strings -/

/-- A Go string: its bytes. -/
abbrev GoString := List Nat

/-- The Go string written as the literal `s`: the UTF-8 bytes of `s`. -/
def str (s : String) : GoString :=
  (s.data.flatMap String.utf8EncodeChar).map UInt8.toNat

/-- Go's `<=` on strings: bytewise lexicographic order. -/
def stringLE : GoString → GoString → Bool
  | [], _ => true
  | _ :: _, [] => false
  | a :: s, b :: t => decide (a < b) || (decide (a = b) && stringLE s t)

/-- The result of `slices.Sort(keys)` on a slice of strings: the keys in ascending order. -/
def sortStrings (l : List GoString) : List GoString :=
  l.insertionSort (fun a b => stringLE a b = true)

/-- Go's `strings.Cut(s, sep)` for a one-byte separator: the text before the first `sep`,
the text after it, and whether `sep` occurs. -/
def cut (s : GoString) (sep : Nat) : GoString × GoString × Bool :=
  match s with
  | [] => ([], [], false)
  | c :: t =>
    if c = sep then ([], t, true)
    else ((c :: (cut t sep).1), (cut t sep).2.1, (cut t sep).2.2)

/-- Go's `strings.Index(s, sep)` for a one-byte separator (`none` stands for -1). -/
def indexByte (s : GoString) (sep : Nat) : Option Nat :=
  match s with
  | [] => none
  | c :: t => if c = sep then some 0 else (indexByte t sep).map (· + 1)

/-- Go's `strings.LastIndex(s, sep)` for a one-byte separator (`none` stands for -1). -/
def lastIndexByte (s : GoString) (sep : Nat) : Option Nat :=
  match s with
  | [] => none
  | c :: t =>
    match lastIndexByte t sep with
    | some i => some (i + 1)
    | none => if c = sep then some 0 else none

/-- Go's `strings.Index(s, sub)` (`none` stands for -1). -/
def indexOf (s sub : GoString) : Option Nat :=
  match s with
  | [] => if sub = [] then some 0 else none
  | c :: t => if sub.isPrefixOf (c :: t) then some 0 else (indexOf t sub).map (· + 1)

/-- Go's `strings.HasSuffix`. -/
def hasSuffix (s suffix : GoString) : Bool := suffix.reverse.isPrefixOf s.reverse

/-- Go's `strings.ToLower` on ASCII text: the letters `A` to `Z` become `a` to `z`. -/
def toLower (s : GoString) : GoString :=
  s.map (fun c => if 65 ≤ c ∧ c ≤ 90 then c + 32 else c)

/-! ## Errors -/

/-- Go error values, as far as the client can meet them. -/
inductive GoError where
  /-- An `errors.New` or `fmt.Errorf` value with the given text. -/
  | text (msg : String)
  /-- The standard library's `url.EscapeError`. -/
  | escape (s : GoString)
  /-- The standard library's `url.InvalidHostError`. -/
  | invalidHost (s : GoString)
  /-- The `fmt.Errorf("invalid port %q after host", colonPort)` value of `parseHost`. -/
  | invalidPort (colonPort : GoString)
  /-- The standard library's `*url.Error` wrapper. -/
  | url (op : String) (url : GoString) (err : GoError)
  /-- An error value made by a collaborator (the HTTP client, the JSON decoder). -/
  | other (tag : Nat)
  deriving DecidableEq, Repr

/-! ## net/url -/

/-- The escaping modes of `net/url`. -/
inductive Encoding where
  | encodePath
  | encodePathSegment
  | encodeHost
  | encodeZone
  | encodeUserPassword
  | encodeQueryComponent
  | encodeFragment
  deriving DecidableEq, Repr

open Encoding

/-- The `net/url` table `upperhex = "0123456789ABCDEF"`. -/
def upperhex : GoString := str "0123456789ABCDEF"

/-- Go's `ishex`. -/
def ishex (c : Nat) : Bool :=
  (48 ≤ c && c ≤ 57) || (97 ≤ c && c ≤ 102) || (65 ≤ c && c ≤ 70)

/-- Go's `unhex`. -/
def unhex (c : Nat) : Nat :=
  if 48 ≤ c ∧ c ≤ 57 then c - 48
  else if 97 ≤ c ∧ c ≤ 102 then c - 97 + 10
  else if 65 ≤ c ∧ c ≤ 70 then c - 65 + 10
  else 0

/-- Go's `shouldEscape(c, mode)`: whether the byte must be escaped in the given part of a URL. -/
def shouldEscape (c : Nat) (mode : Encoding) : Bool :=
  -- unreserved characters (alphanum)
  if (97 ≤ c ∧ c ≤ 122) ∨ (65 ≤ c ∧ c ≤ 90) ∨ (48 ≤ c ∧ c ≤ 57) then false
  -- host and zone: the sub-delims ! $ & (apostrophe) ( ) * + , ; = and : [ ] < > (double quote)
  else if (mode = encodeHost ∨ mode = encodeZone) ∧
      c ∈ [33, 36, 38, 39, 40, 41, 42, 43, 44, 59, 61, 58, 91, 93, 60, 62, 34] then false
  -- unreserved characters (mark)
  else if c ∈ str "-_.~" then false
  -- reserved characters
  else if c ∈ str "$&+,/:;=?@" then
    match mode with
    | encodePath => decide (c = 63)
    | encodePathSegment => decide (c = 47 ∨ c = 59 ∨ c = 44 ∨ c = 63)
    | encodeUserPassword => decide (c = 64 ∨ c = 47 ∨ c = 63 ∨ c = 58)
    | encodeQueryComponent => true
    | encodeFragment => false
    | _ => true
  else if mode = encodeFragment ∧ c ∈ str "!()*" then false
  else true

/-- Go's `escape(s, mode)`: a first loop counts the bytes to rewrite, `s` itself is returned
when there are none, and otherwise the result is written byte by byte. -/
def escape (s : GoString) (mode : Encoding) : GoString :=
  let spaceCount :=
    (s.filter fun c => shouldEscape c mode && (c == 32 && mode == encodeQueryComponent)).length
  let hexCount :=
    (s.filter fun c => shouldEscape c mode && !(c == 32 && mode == encodeQueryComponent)).length
  if spaceCount = 0 ∧ hexCount = 0 then s
  else if hexCount = 0 then s.map (fun c => if c = 32 then 43 else c)
  else
    s.flatMap fun c =>
      if c = 32 ∧ mode = encodeQueryComponent then [43]
      else if shouldEscape c mode then [37, upperhex.getD (c / 16 % 16) 0, upperhex.getD (c % 16) 0]
      else [c]

/-- Go's `url.QueryEscape`. -/
def QueryEscape (s : GoString) : GoString := escape s encodeQueryComponent

/-- The first loop of Go's `unescape(s, mode)`: it checks every `%` escape and every host
byte, and returns the number of `%` escapes and whether a `+` must be rewritten. -/
def unescapeCheck (mode : Encoding) : GoString → Nat → Bool → Except GoError (Nat × Bool)
  | [], n, hasPlus => .ok (n, hasPlus)
  | c :: rest, n, hasPlus =>
    if c = 37 then
      match rest with
      | h1 :: h2 :: rest2 =>
        if !ishex h1 || !ishex h2 then .error (.escape [c, h1, h2])
        else if mode = encodeHost ∧ unhex h1 < 8 ∧ [c, h1, h2] ≠ str "%25" then
          .error (.escape [c, h1, h2])
        else if mode = encodeZone ∧ [c, h1, h2] ≠ str "%25" ∧ unhex h1 * 16 + unhex h2 ≠ 32
            ∧ shouldEscape (unhex h1 * 16 + unhex h2) encodeHost = true then
          .error (.escape [c, h1, h2])
        else unescapeCheck mode rest2 (n + 1) hasPlus
      | _ => .error (.escape (c :: rest))
    else if c = 43 then
      unescapeCheck mode rest n (decide (mode = encodeQueryComponent))
    else if (mode = encodeHost ∨ mode = encodeZone) ∧ c < 128 ∧ shouldEscape c encodeHost = true then
      .error (.invalidHost [c])
    else unescapeCheck mode rest n hasPlus

/-- The second loop of Go's `unescape(s, mode)`: the decoded bytes. -/
def unescapeBuild (mode : Encoding) : GoString → GoString
  | [] => []
  | c :: rest =>
    if c = 37 then
      match rest with
      | h1 :: h2 :: rest2 => (unhex h1 * 16 + unhex h2) :: unescapeBuild mode rest2
      | _ => []
    else if c = 43 then
      (if mode = encodeQueryComponent then 32 else 43) :: unescapeBuild mode rest
    else c :: unescapeBuild mode rest

/-- Go's `unescape(s, mode)`. -/
def unescape (s : GoString) (mode : Encoding) : Except GoError GoString :=
  match unescapeCheck mode s 0 false with
  | .error e => .error e
  | .ok (n, hasPlus) => if n = 0 ∧ hasPlus = false then .ok s else .ok (unescapeBuild mode s)

/-- Go's `stringContainsCTLByte`: whether `s` holds an ASCII control byte. -/
def stringContainsCTLByte (s : GoString) : Bool :=
  s.any fun b => decide (b < 32) || decide (b = 127)

/-- Go's `validOptionalPort`: `port` is empty or a colon followed by decimal digits. -/
def validOptionalPort (port : GoString) : Bool :=
  match port with
  | [] => true
  | c :: digits => decide (c = 58) && digits.all fun b => !(decide (b < 48) || decide (b > 57))

/-- Go's `validUserinfo`: every character of `s` is a letter, a digit or one of
`-._:~!$&(apostrophe)()*+,;=%@`.  A byte of a character outside ASCII is none of them. -/
def validUserinfo (s : GoString) : Bool :=
  s.all fun r =>
    (decide (65 ≤ r) && decide (r ≤ 90)) || (decide (97 ≤ r) && decide (r ≤ 122)) ||
    (decide (48 ≤ r) && decide (r ≤ 57)) ||
    decide (r ∈ [45, 46, 95, 58, 126, 33, 36, 38, 39, 40, 41, 42, 43, 44, 59, 61, 37, 64])

/-- The `net/url` type `Userinfo`. -/
structure Userinfo where
  username : GoString
  password : GoString
  passwordSet : Bool
  deriving DecidableEq, Repr

/-- The `net/url` type `URL`; a field left out of a literal holds its zero value. -/
structure URL where
  Scheme : GoString := []
  Opaque : GoString := []
  User : Option Userinfo := none
  Host : GoString := []
  Path : GoString := []
  RawPath : GoString := []
  OmitHost : Bool := false
  ForceQuery : Bool := false
  RawQuery : GoString := []
  Fragment : GoString := []
  RawFragment : GoString := []
  deriving DecidableEq, Repr

/-- The loop of Go's `getScheme`, at byte index `i` of `rawURL` with `rest` still to read. -/
def getSchemeLoop (rawURL : GoString) : GoString → Nat → Except GoError (GoString × GoString)
  | [], _ => .ok ([], rawURL)
  | c :: rest, i =>
    if (97 ≤ c ∧ c ≤ 122) ∨ (65 ≤ c ∧ c ≤ 90) then getSchemeLoop rawURL rest (i + 1)
    else if (48 ≤ c ∧ c ≤ 57) ∨ c = 43 ∨ c = 45 ∨ c = 46 then
      if i = 0 then .ok ([], rawURL) else getSchemeLoop rawURL rest (i + 1)
    else if c = 58 then
      if i = 0 then .error (.text "missing protocol scheme") else .ok (rawURL.take i, rest)
    else .ok ([], rawURL)

/-- Go's `getScheme(rawURL)`: the scheme and what follows its colon, or no scheme and the
whole text. -/
def getScheme (rawURL : GoString) : Except GoError (GoString × GoString) :=
  getSchemeLoop rawURL rawURL 0

/-- Go's `parseHost`, as `net/url` has it in the releases that leave the text between the
brackets of an IP literal unchecked; the releases that pass that text to `netip.ParseAddr`
reject more bracketed hosts. -/
def parseHost (host : GoString) : Except GoError GoString :=
  if (str "[").isPrefixOf host then
    match lastIndexByte host 93 with
    | none => .error (.text "missing ']' in host")
    | some i =>
      if !validOptionalPort (host.drop (i + 1)) then .error (.invalidPort (host.drop (i + 1)))
      else
        match indexOf (host.take i) (str "%25") with
        | some zone =>
          match unescape (host.take zone) encodeHost with
          | .error e => .error e
          | .ok host1 =>
            match unescape ((host.take i).drop zone) encodeZone with
            | .error e => .error e
            | .ok host2 =>
              match unescape (host.drop i) encodeHost with
              | .error e => .error e
              | .ok host3 => .ok (host1 ++ host2 ++ host3)
        | none => unescape host encodeHost
  else
    match lastIndexByte host 58 with
    | some i =>
      if !validOptionalPort (host.drop i) then .error (.invalidPort (host.drop i))
      else unescape host encodeHost
    | none => unescape host encodeHost

/-- Go's `parseAuthority`: the user information and the host of `[userinfo@]host[:port]`. -/
def parseAuthority (authority : GoString) : Except GoError (Option Userinfo × GoString) :=
  let i := lastIndexByte authority 64
  let hostResult :=
    match i with
    | none => parseHost authority
    | some i => parseHost (authority.drop (i + 1))
  match hostResult with
  | .error e => .error e
  | .ok host =>
    match i with
    | none => .ok (none, host)
    | some i =>
      let userinfo := authority.take i
      if !validUserinfo userinfo then .error (.text "net/url: invalid userinfo")
      else if !userinfo.contains 58 then
        match unescape userinfo encodeUserPassword with
        | .error e => .error e
        | .ok username => .ok (some ⟨username, [], false⟩, host)
      else
        match unescape (cut userinfo 58).1 encodeUserPassword with
        | .error e => .error e
        | .ok username =>
          match unescape (cut userinfo 58).2.1 encodeUserPassword with
          | .error e => .error e
          | .ok password => .ok (some ⟨username, password, true⟩, host)

/-- Go's `(*URL).setPath`. -/
def setPath (u : URL) (p : GoString) : Except GoError URL :=
  match unescape p encodePath with
  | .error e => .error e
  | .ok path =>
    .ok { u with Path := path, RawPath := if p = escape path encodePath then [] else p }

/-- Go's `(*URL).setFragment`. -/
def setFragment (u : URL) (f : GoString) : Except GoError URL :=
  match unescape f encodeFragment with
  | .error e => .error e
  | .ok frag =>
    .ok { u with Fragment := frag, RawFragment := if f = escape frag encodeFragment then [] else f }

/-- Go's `parse(rawURL, viaRequest)`: a URL without its fragment. -/
def parse (rawURL : GoString) (viaRequest : Bool) : Except GoError URL :=
  if stringContainsCTLByte rawURL then .error (.text "net/url: invalid control character in URL")
  else if rawURL = [] ∧ viaRequest = true then .error (.text "empty url")
  else if rawURL = str "*" then .ok { Path := str "*" }
  else
    match getScheme rawURL with
    | .error e => .error e
    | .ok (scheme, rest0) =>
      let url : URL := { Scheme := toLower scheme }
      let forceQuery : Bool := hasSuffix rest0 (str "?") && decide (rest0.count 63 = 1)
      let rest : GoString := if forceQuery then rest0.take (rest0.length - 1) else (cut rest0 63).1
      let url : URL :=
        if forceQuery then { url with ForceQuery := true }
        else { url with RawQuery := (cut rest0 63).2.1 }
      if !(str "/").isPrefixOf rest ∧ url.Scheme ≠ [] then
        -- rootless paths are opaque
        .ok { url with Opaque := rest }
      else if !(str "/").isPrefixOf rest ∧ viaRequest = true then
        .error (.text "invalid URI for request")
      else if !(str "/").isPrefixOf rest ∧ (cut rest 47).1.contains 58 then
        .error (.text "first path segment in URL cannot contain colon")
      else if (url.Scheme ≠ [] ∨ (viaRequest = false ∧ !(str "///").isPrefixOf rest))
          ∧ (str "//").isPrefixOf rest then
        let authority0 := rest.drop 2
        let authority :=
          match indexByte authority0 47 with
          | some i => authority0.take i
          | none => authority0
        let rest :=
          match indexByte authority0 47 with
          | some i => authority0.drop i
          | none => []
        match parseAuthority authority with
        | .error e => .error e
        | .ok (user, host) => setPath { url with User := user, Host := host } rest
      else if url.Scheme ≠ [] ∧ (str "/").isPrefixOf rest then
        setPath { url with OmitHost := true } rest
      else setPath url rest

/-- Go's `url.Parse(rawURL)`: a URL reference, absolute or relative, with its fragment. -/
def Parse (rawURL : GoString) : Except GoError URL :=
  match parse (cut rawURL 35).1 false with
  | .error err => .error (.url "parse" (cut rawURL 35).1 err)
  | .ok url =>
    if (cut rawURL 35).2.1 = [] then .ok url
    else
      match setFragment url (cut rawURL 35).2.1 with
      | .error err => .error (.url "parse" rawURL err)
      | .ok url => .ok url

/-- Go's `url.Values`, a non-nil `map[string][]string`: its entries, no key twice. -/
structure Values where
  entries : List (GoString × List GoString)
  nodup : (entries.map Prod.fst).Nodup

/-- The keys of the map (Go ranges over them in no fixed order). -/
def Values.keys (v : Values) : List GoString := v.entries.map Prod.fst

/-- The map read `v[k]`: the values under `k`, the nil slice when the key is absent. -/
def Values.get (v : Values) (k : GoString) : List GoString :=
  match v.entries.find? (fun e => e.1 == k) with
  | some e => e.2
  | none => []

/-- The map assignment `v[k] = vs` on a non-nil map. -/
def Values.set (v : Values) (k : GoString) (vs : List GoString) : Values :=
  ⟨(k, vs) :: v.entries.filter (fun e => decide (e.1 ≠ k)), by
    simp only [List.map_cons, List.nodup_cons, List.mem_map, List.mem_filter]
    refine ⟨?_, v.nodup.sublist ((List.filter_sublist _).map _)⟩
    rintro ⟨e, ⟨_, he⟩, rfl⟩
    simp at he⟩

/-- Go's `Values.Encode`: the keys are sorted, and every value of every key is appended to a
buffer as `key=value`, both escaped, after a `&` when the buffer is not empty. -/
def Values.Encode (v : Values) : GoString :=
  if v.entries.length = 0 then []
  else
    (sortStrings v.keys).foldl
      (fun buf k =>
        (v.get k).foldl
          (fun buf val =>
            (if buf.length > 0 then buf ++ [38] else buf) ++ QueryEscape k ++ [61] ++ QueryEscape val)
          buf)
      []

/-! ## net/http -/

/-- The `net/http` type `Header`, a `map[string][]string`, as its entries. -/
abbrev Header := List (GoString × List GoString)

/-- Go's `validHeaderFieldByte` (and `httpguts.IsTokenRune` on a byte): the bytes of an HTTP
token, which are the letters, the digits and `!#$%&(apostrophe)*+-.^_(backquote)|~`. -/
def isTokenByte (c : Nat) : Bool :=
  (decide (97 ≤ c) && decide (c ≤ 122)) || (decide (65 ≤ c) && decide (c ≤ 90)) ||
  (decide (48 ≤ c) && decide (c ≤ 57)) ||
  decide (c ∈ [33, 35, 36, 37, 38, 39, 42, 43, 45, 46, 94, 95, 96, 124, 126])

/-- The loop of `textproto.CanonicalMIMEHeaderKey` on a key of token bytes: a letter is made
upper case at the start and after a hyphen, lower case elsewhere. -/
def canonicalLoop : GoString → Bool → GoString
  | [], _ => []
  | c :: rest, upper =>
    (if upper ∧ 97 ≤ c ∧ c ≤ 122 then c - 32
     else if ¬ upper ∧ 65 ≤ c ∧ c ≤ 90 then c + 32
     else c) :: canonicalLoop rest (decide (c = 45))

/-- Go's `textproto.CanonicalMIMEHeaderKey`: a key holding a byte that is not a token byte is
returned as it is. -/
def CanonicalMIMEHeaderKey (s : GoString) : GoString :=
  if s.all isTokenByte then canonicalLoop s true else s

/-- Go's `Header.Set(key, value)`: the entry of the canonical key is replaced by `[value]`. -/
def Header.Set (h : Header) (key value : GoString) : Header :=
  (CanonicalMIMEHeaderKey key, [value]) ::
    h.filter (fun e => decide (e.1 ≠ CanonicalMIMEHeaderKey key))

/-- The map read `h[key]`: `none` when the header has no entry for `key`. -/
def Header.values (h : Header) (key : GoString) : Option (List GoString) :=
  (h.find? (fun e => e.1 == key)).map Prod.snd

/-- The `net/http` type `Request`, as far as `NewRequest` with a nil body fills it. -/
structure Request where
  Method : GoString
  URL : URL
  Header : Header
  Host : GoString
  deriving DecidableEq, Repr

/-- The `net/http` type `Response`: the status code and the bytes its body delivers. -/
structure Response where
  StatusCode : Int
  Body : GoString
  deriving DecidableEq, Repr

/-- Go's `validMethod`: a non-empty HTTP token. -/
def validMethod (method : GoString) : Bool :=
  decide (method.length > 0) && method.all isTokenByte

/-- Go's `removeEmptyPort`: a host ending in a colon that introduces a port loses the colon. -/
def removeEmptyPort (host : GoString) : GoString :=
  let hasPort : Bool :=
    match lastIndexByte host 58, lastIndexByte host 93 with
    | some i, some j => decide (i > j)
    | some _, none => true
    | none, _ => false
  if hasPort ∧ hasSuffix host (str ":") then host.take (host.length - 1) else host

/-- Go's `http.NewRequest(method, url, nil)`. -/
def NewRequest (method url : GoString) : Except GoError Request :=
  let method := if method = [] then str "GET" else method
  if !validMethod method then .error (.text "net/http: invalid method")
  else
    match Parse url with
    | .error err => .error err
    | .ok u =>
      .ok { Method := method,
            URL := { u with Host := removeEmptyPort u.Host },
            Header := [],
            Host := removeEmptyPort u.Host }

/-- The `Do` method of an `*http.Client`: what it returns for a request. -/
abbrev Client := Request → Option Response × Option GoError

/-! ## JSON decoding

The client decodes with json-iterator's `ConfigCompatibleWithStandardLibrary`.  Reading the
bytes into a JSON value is left to the collaborator (`World.readJSON`); binding a value to
the client's result types follows json-iterator's decoders (release 1.1 with reflect2): an
object member is bound to the field whose `json` tag equals its key, the case of ASCII
letters ignored; a member with no such field is skipped; a field with no member keeps its
value; `null` leaves a struct, a number or a time as it is, makes a string empty and empties
a map or a slice; the items of an array are decoded into the slice's backing array, element
by element; any other mismatch of kinds is an error. -/

/-- A JSON value.  A number written without fraction or exponent is an `int`. -/
inductive JSON where
  | null
  | bool (b : Bool)
  | int (n : Int)
  | float (text : GoString)
  | string (s : GoString)
  | array (items : List JSON)
  | object (members : List (GoString × JSON))

/-- Go's `time.Time`, as a count of nanoseconds from the zero time. -/
structure Time where
  nanos : Int := 0
  deriving DecidableEq, Repr

/-- The source's `Thumbnail`. -/
structure Thumbnail where
  Source : GoString := []
  deriving DecidableEq, Repr

/-- The source's `Original`. -/
structure Original where
  Source : GoString := []
  deriving DecidableEq, Repr

/-- The source's `ApiPage`. -/
structure ApiPage where
  PageId : Int := 0
  Ns : Int := 0
  Title : GoString := []
  Extract : GoString := []
  Thumbnail : Thumbnail := {}
  Original : Original := {}
  deriving DecidableEq, Repr

/-- The source's `ApiSearch`. -/
structure ApiSearch where
  Ns : Int := 0
  Title : GoString := []
  Snippet : GoString := []
  Size : Int := 0
  WordCount : Int := 0
  Timestamp : Time := {}
  deriving DecidableEq, Repr

/-- The source's `ApiSearchInfo`. -/
structure ApiSearchInfo where
  TotalHits : Int := 0
  deriving DecidableEq, Repr

/-- A Go slice: its elements, and the elements of its backing array past its length, so that
its capacity is the length of both together.  The nil slice has neither. -/
structure Slice (α : Type) where
  elems : List α := []
  spare : List α := []
  deriving DecidableEq, Repr

/-- The source's `ApiQuery`; the nil map is the empty list. -/
structure ApiQuery where
  Pages : List (GoString × ApiPage) := []
  Search : Slice ApiSearch := {}
  SearchInfo : ApiSearchInfo := {}
  deriving DecidableEq, Repr

/-- The source's `ApiQueryContinueSearch`. -/
structure ApiQueryContinueSearch where
  SrOffset : Int := 0
  deriving DecidableEq, Repr

/-- The source's `ApiQueryContinue`. -/
structure ApiQueryContinue where
  Search : ApiQueryContinueSearch := {}
  deriving DecidableEq, Repr

/-- The source's `ApiResponse`. -/
structure ApiResponse where
  Query : ApiQuery := {}
  QueryContinue : ApiQueryContinue := {}
  deriving DecidableEq, Repr

/-- The error of a JSON value that does not fit the Go type it is decoded into. -/
def unmarshalTypeError : GoError := .text "json: cannot unmarshal value into Go type"

/-- Decoding into a Go `int` (64 bits). -/
def decodeInt (v : JSON) (cur : Int) : Except GoError Int :=
  match v with
  | .null => .ok cur
  | .int n => if -(2 : Int) ^ 63 ≤ n ∧ n < (2 : Int) ^ 63 then .ok n else .error unmarshalTypeError
  | _ => .error unmarshalTypeError

/-- Decoding into a Go `string`: json-iterator's `ReadString` gives the empty string for
`null`. -/
def decodeString (v : JSON) : Except GoError GoString :=
  match v with
  | .null => .ok []
  | .string s => .ok s
  | _ => .error unmarshalTypeError

/-- Decoding into a `time.Time`: `Time.UnmarshalJSON` reads a JSON string as RFC 3339. -/
def decodeTime (readTime : GoString → Except GoError Time) (v : JSON) (cur : Time) :
    Except GoError Time :=
  match v with
  | .null => .ok cur
  | .string s => readTime s
  | _ => .error unmarshalTypeError

/-- The members of a JSON object decoded one after the other into a struct value: `field`
gives, for a key in lower case, the decoder of the field with that tag. -/
def decodeMembers {α : Type} (field : GoString → Option (JSON → α → Except GoError α)) :
    List (GoString × JSON) → α → Except GoError α
  | [], cur => .ok cur
  | (k, x) :: rest, cur =>
    match field (toLower k) with
    | none => decodeMembers field rest cur
    | some f =>
      match f x cur with
      | .error e => .error e
      | .ok next => decodeMembers field rest next

/-- Decoding into a struct. -/
def decodeStruct {α : Type} (field : GoString → Option (JSON → α → Except GoError α))
    (v : JSON) (cur : α) : Except GoError α :=
  match v with
  | .null => .ok cur
  | .object members => decodeMembers field members cur
  | _ => .error unmarshalTypeError

/-- The loop of reflect2's `calcNewCap`: the capacity is doubled below 1024 and grown by a
quarter from there, until it reaches `expectedCap`.  Every round adds at least one, so
`expectedCap` rounds are enough. -/
def calcNewCapLoop : Nat → Nat → Nat → Nat
  | 0, cap, _ => cap
  | fuel + 1, cap, expectedCap =>
    if cap < expectedCap then
      calcNewCapLoop fuel (if cap < 1024 then cap + cap else cap + cap / 4) expectedCap
    else cap

/-- reflect2's `calcNewCap(cap, expectedCap)`. -/
def calcNewCap (cap expectedCap : Nat) : Nat :=
  if cap = 0 then expectedCap else calcNewCapLoop expectedCap cap expectedCap

/-- reflect2's `UnsafeGrow(slice, newLength)`: within the capacity only the length changes,
so the elements the backing array already holds come back; beyond it a new zeroed backing
array of `calcNewCap` elements receives the elements up to the old length. -/
def Slice.grow {α : Type} (zero : α) (s : Slice α) (newLength : Nat) : Slice α :=
  if newLength ≤ s.elems.length + s.spare.length then
    ⟨(s.elems ++ s.spare).take newLength, (s.elems ++ s.spare).drop newLength⟩
  else
    ⟨(s.elems ++ List.replicate
        (calcNewCap (s.elems.length + s.spare.length) newLength - s.elems.length) zero).take
        newLength,
     (s.elems ++ List.replicate
        (calcNewCap (s.elems.length + s.spare.length) newLength - s.elems.length) zero).drop
        newLength⟩

/-- The loop of json-iterator's slice decoder: for the item at index `idx` the slice is grown
to `idx + 1` elements and the item is decoded into the element at `idx`. -/
def decodeItems {α : Type} (zero : α) (elem : JSON → α → Except GoError α) :
    List JSON → Nat → Slice α → Except GoError (Slice α)
  | [], _, s => .ok s
  | x :: rest, idx, s =>
    match elem x (((s.grow zero (idx + 1)).elems).getD idx zero) with
    | .error e => .error e
    | .ok a =>
      decodeItems zero elem rest (idx + 1)
        ⟨((s.grow zero (idx + 1)).elems).set idx a, (s.grow zero (idx + 1)).spare⟩

/-- Decoding the members of a JSON object into a map with string keys, each value into a
fresh element; a key met again replaces its entry. -/
def decodeEntries {α : Type} (elem : JSON → Except GoError α) :
    List (GoString × JSON) → List (GoString × α) → Except GoError (List (GoString × α))
  | [], cur => .ok cur
  | (k, x) :: rest, cur =>
    match elem x with
    | .error e => .error e
    | .ok a => decodeEntries elem rest (cur.filter (fun e => decide (e.1 ≠ k)) ++ [(k, a)])

/-- Decoding into `Thumbnail`: `Source` has the tag `source`. -/
def decodeThumbnail (v : JSON) (cur : Thumbnail) : Except GoError Thumbnail :=
  decodeStruct
    (fun k =>
      if k = str "source" then
        some fun x t => (decodeString x).map fun s => { t with Source := s }
      else none)
    v cur

/-- Decoding into `Original`: `Source` has the tag `source`. -/
def decodeOriginal (v : JSON) (cur : Original) : Except GoError Original :=
  decodeStruct
    (fun k =>
      if k = str "source" then
        some fun x t => (decodeString x).map fun s => { t with Source := s }
      else none)
    v cur

/-- Decoding into `ApiPage`, by the tags `pageid`, `ns`, `title`, `extract`, `thumbnail` and
`original`. -/
def decodeApiPage (v : JSON) (cur : ApiPage) : Except GoError ApiPage :=
  decodeStruct
    (fun k =>
      if k = str "pageid" then
        some fun x p => (decodeInt x p.PageId).map fun n => { p with PageId := n }
      else if k = str "ns" then
        some fun x p => (decodeInt x p.Ns).map fun n => { p with Ns := n }
      else if k = str "title" then
        some fun x p => (decodeString x).map fun s => { p with Title := s }
      else if k = str "extract" then
        some fun x p => (decodeString x).map fun s => { p with Extract := s }
      else if k = str "thumbnail" then
        some fun x p => (decodeThumbnail x p.Thumbnail).map fun t => { p with Thumbnail := t }
      else if k = str "original" then
        some fun x p => (decodeOriginal x p.Original).map fun t => { p with Original := t }
      else none)
    v cur

/-- Decoding into `ApiSearch`, by the tags `ns`, `title`, `snippet`, `size`, `wordcount` and
`timestamp`. -/
def decodeApiSearch (readTime : GoString → Except GoError Time) (v : JSON) (cur : ApiSearch) :
    Except GoError ApiSearch :=
  decodeStruct
    (fun k =>
      if k = str "ns" then
        some fun x p => (decodeInt x p.Ns).map fun n => { p with Ns := n }
      else if k = str "title" then
        some fun x p => (decodeString x).map fun s => { p with Title := s }
      else if k = str "snippet" then
        some fun x p => (decodeString x).map fun s => { p with Snippet := s }
      else if k = str "size" then
        some fun x p => (decodeInt x p.Size).map fun n => { p with Size := n }
      else if k = str "wordcount" then
        some fun x p => (decodeInt x p.WordCount).map fun n => { p with WordCount := n }
      else if k = str "timestamp" then
        some fun x p => (decodeTime readTime x p.Timestamp).map fun t => { p with Timestamp := t }
      else none)
    v cur

/-- Decoding into `ApiSearchInfo`: the one field, `TotalHits`, has the tag `source`. -/
def decodeApiSearchInfo (v : JSON) (cur : ApiSearchInfo) : Except GoError ApiSearchInfo :=
  decodeStruct
    (fun k =>
      if k = str "source" then
        some fun x i => (decodeInt x i.TotalHits).map fun n => { i with TotalHits := n }
      else none)
    v cur

/-- Decoding into the `map[string]ApiPage` of `ApiQuery.Pages`. -/
def decodePages (v : JSON) (cur : List (GoString × ApiPage)) :
    Except GoError (List (GoString × ApiPage)) :=
  match v with
  | .null => .ok []
  | .object members => decodeEntries (fun x => decodeApiPage x {}) members cur
  | _ => .error unmarshalTypeError

/-- Decoding into the `[]ApiSearch` of `ApiQuery.Search`: `null` gives the nil slice, an
empty array a new empty slice, and the items of any other array are decoded into the
elements of the current slice's backing array. -/
def decodeSearch (readTime : GoString → Except GoError Time) (v : JSON) (cur : Slice ApiSearch) :
    Except GoError (Slice ApiSearch) :=
  match v with
  | .null => .ok {}
  | .array [] => .ok {}
  | .array items => decodeItems {} (decodeApiSearch readTime) items 0 cur
  | _ => .error unmarshalTypeError

/-- Decoding into `ApiQuery`, by the tags `pages`, `search` and `searchinfo`. -/
def decodeApiQuery (readTime : GoString → Except GoError Time) (v : JSON) (cur : ApiQuery) :
    Except GoError ApiQuery :=
  decodeStruct
    (fun k =>
      if k = str "pages" then
        some fun x q => (decodePages x q.Pages).map fun p => { q with Pages := p }
      else if k = str "search" then
        some fun x q => (decodeSearch readTime x q.Search).map fun l => { q with Search := l }
      else if k = str "searchinfo" then
        some fun x q => (decodeApiSearchInfo x q.SearchInfo).map fun i => { q with SearchInfo := i }
      else none)
    v cur

/-- Decoding into `ApiQueryContinueSearch`: `SrOffset` has the tag `sroffset`. -/
def decodeApiQueryContinueSearch (v : JSON) (cur : ApiQueryContinueSearch) :
    Except GoError ApiQueryContinueSearch :=
  decodeStruct
    (fun k =>
      if k = str "sroffset" then
        some fun x c => (decodeInt x c.SrOffset).map fun n => { c with SrOffset := n }
      else none)
    v cur

/-- Decoding into `ApiQueryContinue`: `Search` has the tag `search`. -/
def decodeApiQueryContinue (v : JSON) (cur : ApiQueryContinue) : Except GoError ApiQueryContinue :=
  decodeStruct
    (fun k =>
      if k = str "search" then
        some fun x c => (decodeApiQueryContinueSearch x c.Search).map fun n => { c with Search := n }
      else none)
    v cur

/-- Decoding into `ApiResponse`, by the tags `query` and `query-continue`. -/
def decodeApiResponse (readTime : GoString → Except GoError Time) (v : JSON) (cur : ApiResponse) :
    Except GoError ApiResponse :=
  decodeStruct
    (fun k =>
      if k = str "query" then
        some fun x r => (decodeApiQuery readTime x r.Query).map fun q => { r with Query := q }
      else if k = str "query-continue" then
        some fun x r =>
          (decodeApiQueryContinue x r.QueryContinue).map fun c => { r with QueryContinue := c }
      else none)
    v cur

/-! ## The client -/

/-- The collaborators of the client: `http.DefaultClient`, the reader of JSON text and the
reader of RFC 3339 times. -/
structure World where
  DefaultClient : Client
  readJSON : GoString → Except GoError JSON
  readTime : GoString → Except GoError Time

/-- The statement `json.NewDecoder(resp.Body).Decode(&apiResp)` on a zero `apiResp`. -/
def decodeBody (w : World) (body : GoString) : Except GoError ApiResponse :=
  match w.readJSON body with
  | .error e => .error e
  | .ok v => decodeApiResponse w.readTime v {}

/-- The source's `Options`; `Client` is `none` for a nil pointer. -/
structure Options where
  URL : GoString
  Client : Option Client
  UserAgent : GoString

/-- The source's `Wikimedia`. -/
structure Wikimedia where
  Options : Options

/-- What a run does to its collaborators, in order. -/
inductive Event where
  /-- A call of `http.NewRequest`. -/
  | newRequest (method url : GoString)
  /-- A call of the `Do` method, of `Options.Client` (`custom`) or of `http.DefaultClient`. -/
  | clientDo (custom : Bool) (req : Request)
  /-- A call of the decoder on a response body. -/
  | decode (body : GoString)
  deriving DecidableEq, Repr

/-- How a call of `Query` ends: with a run-time panic, or by returning its two results. -/
inductive Outcome where
  | panics (msg : String)
  | returns (resp : Option ApiResponse) (err : Option GoError)
  deriving DecidableEq, Repr

/-- The source's `New(options ...Options)`. -/
def New (options : List Options) : Option Wikimedia × Option GoError :=
  let opts : Options :=
    match options with
    | [] => ⟨[], none, []⟩
    | o :: _ => o
  if opts.URL = [] then (none, some (.text "URL cannot be nil"))
  else
    match Parse opts.URL with
    | .error err => (none, some err)
    | .ok _ => (some ⟨opts⟩, none)

/-- The source's `(wiki *Wikimedia) get(url)`, with the calls it makes. -/
def get (w : World) (wiki : Wikimedia) (url : GoString) :
    List Event × Option Response × Option GoError :=
  match NewRequest (str "GET") url with
  | .error err => ([.newRequest (str "GET") url], none, some err)
  | .ok req =>
    let req : Request :=
      if wiki.Options.UserAgent ≠ [] then
        { req with Header := req.Header.Set (str "User-Agent") wiki.Options.UserAgent }
      else req
    match wiki.Options.Client with
    | some client => ([.newRequest (str "GET") url, .clientDo true req], client req)
    | none => ([.newRequest (str "GET") url, .clientDo false req], w.DefaultClient req)

/-- The URL `fmt.Sprintf("%s?%s", wiki.Options.URL, query.Encode())` of `Query`, after the
assignment `query["format"] = []string{"json"}`. -/
def queryURL (wiki : Wikimedia) (query : Values) : GoString :=
  wiki.Options.URL ++ str "?" ++ (query.set (str "format") [str "json"]).Encode

/-- The source's `(wiki *Wikimedia) Query(query)`, with the calls it makes; `none` is the nil
map. -/
def Query (w : World) (wiki : Wikimedia) (query : Option Values) : List Event × Outcome :=
  match query with
  | none => ([], .panics "assignment to entry in nil map")
  | some query =>
    match get w wiki (queryURL wiki query) with
    | (events, _, some err) => (events, .returns none (some err))
    | (events, none, none) =>
      (events, .panics "invalid memory address or nil pointer dereference")
    | (events, some resp, none) =>
      match decodeBody w resp.Body with
      | .error err => (events ++ [.decode resp.Body], .returns none (some err))
      | .ok apiResp => (events ++ [.decode resp.Body], .returns (some apiResp) none)

/-! ## The query string in the specification's words -/

/-- The unreserved bytes: letters, digits and `-`, `_`, `.`, `~`. -/
def isUnreserved (c : Nat) : Bool :=
  (decide (97 ≤ c) && decide (c ≤ 122)) || (decide (65 ≤ c) && decide (c ≤ 90)) ||
  (decide (48 ≤ c) && decide (c ≤ 57)) || decide (c = 45 ∨ c = 95 ∨ c = 46 ∨ c = 126)

/-- The upper-case hexadecimal digit of a number below 16. -/
def hexDigit (n : Nat) : Nat := if n < 10 then 48 + n else 55 + n

/-- URL-encoding of one byte of a query component: an unreserved byte stands for itself, a
space becomes `+`, any other byte becomes `%` and its two hexadecimal digits. -/
def percentEncodeByte (c : Nat) : GoString :=
  if isUnreserved c then [c]
  else if c = 32 then [43]
  else [37, hexDigit (c / 16 % 16), hexDigit (c % 16)]

/-- URL-encoding of a key or a value. -/
def percentEncode (s : GoString) : GoString := s.flatMap percentEncodeByte

/-- The pair `key=value`, both sides URL-encoded. -/
def encodedPair (k val : GoString) : GoString := percentEncode k ++ [61] ++ percentEncode val

/-- The encoded pairs of the keys `keys` of `v`, in the order of `keys`: a key with n values
gives n pairs, in the order of its values. -/
def encodedPairsOf (v : Values) (keys : List GoString) : List GoString :=
  keys.flatMap fun k => (v.get k).map fun val => encodedPair k val

/-- The standard URL-encoding of a parameter map: the encoded pairs of all its keys, the keys
in ascending order, joined by `&`. -/
def formEncode (v : Values) : GoString :=
  [38].intercalate (encodedPairsOf v (sortStrings v.keys))

/-- The `key=value` pairs of a query string as `url.ParseQuery` splits it: the string is cut at
every `&`, empty pieces are dropped, and a piece is cut at its first `=`.  Keys and values are
kept as written. -/
def queryPairs (qs : GoString) : List (GoString × GoString) :=
  ((qs.splitOn 38).filter fun piece => decide (piece ≠ [])).map fun piece =>
    ((cut piece 61).1, (cut piece 61).2.1)

/-- The keys of `v` that sort strictly before `k`, in ascending order. -/
def keysBefore (v : Values) (k : GoString) : List GoString :=
  sortStrings (v.keys.filter fun x => stringLE x k && decide (x ≠ k))

/-- The keys of `v` that sort strictly after `k`, in ascending order. -/
def keysAfter (v : Values) (k : GoString) : List GoString :=
  sortStrings (v.keys.filter fun x => !stringLE x k)

/-- The transport of a client: `Options.Client` if set, else the default client. -/
def transportOf (w : World) (wiki : Wikimedia) : Client :=
  match wiki.Options.Client with
  | some client => client
  | none => w.DefaultClient

/-- The request `get` hands to the transport when `NewRequest` has built `req`: `req` with
the `User-Agent` header set when `Options.UserAgent` is not empty. -/
def sentRequest (wiki : Wikimedia) (req : Request) : Request :=
  if wiki.Options.UserAgent ≠ [] then
    { req with Header := req.Header.Set (str "User-Agent") wiki.Options.UserAgent }
  else req

/-! ## Sample inputs -/

/-- A world whose default client fails and whose readers reject every input. -/
def failingWorld : World :=
  ⟨fun _ => (none, some (.other 0)), fun _ => .error (.other 1), fun _ => .error (.other 2)⟩

/-- A response with status 200 and the empty JSON object as its body. -/
def okResponse : Response := ⟨200, str "\x7b\x7d"⟩

/-- A client whose `Do` answers every request with `okResponse`. -/
def answeringClient : Client := fun _ => (some okResponse, none)

/-- The options of the tests: the English Wikipedia, no client, no user agent. -/
def wikipediaOptions : Options := ⟨str "https://en.wikipedia.org/w/api.php", none, []⟩

/-- The client of the tests. -/
def wikipedia : Wikimedia := ⟨wikipediaOptions⟩

/-- The string `TestGet` passes to `get` as an invalid URL. -/
def testGetURL : GoString := str "oF#.com.()389HPFDI*&$@"

/-- The parameter map `{"titles": ["Google"]}`. -/
def titlesGoogle : Values := ⟨[(str "titles", [str "Google"])], by decide⟩

/-- The parameter map of `TestQuery` and `TestGet`. -/
def testQuery : Values :=
  ⟨[(str "action", [str "query"]), (str "prop", [str "extracts"]), (str "titles", [str "Google"]),
    (str "exsentences", [str "5"]), (str "explaintext", [str "1"])], by decide⟩

/-- Options whose base URL already has a query. -/
def queryBaseOptions : Options := ⟨str "https://x/api.php?a=1", none, []⟩

/-- Options whose base URL has a fragment. -/
def fragmentBaseOptions : Options := ⟨str "https://x/api.php#top", none, []⟩

/-- The empty, non-nil parameter map. -/
def emptyValues : Values := ⟨[], by decide⟩

/-- The parameter map `{"format": ["xml", "php"], "action": ["query"]}`. -/
def formatXmlPhp : Values :=
  ⟨[(str "format", [str "xml", str "php"]), (str "action", [str "query"])], by decide⟩

/-- The client of the tests with `answeringClient` as its `Options.Client`. -/
def answeringWikipedia : Wikimedia :=
  ⟨⟨str "https://en.wikipedia.org/w/api.php", some answeringClient, []⟩⟩

/-- The client of the tests with the user agent `bot`. -/
def botWikipedia : Wikimedia :=
  ⟨⟨str "https://en.wikipedia.org/w/api.php", none, str "bot"⟩⟩

/-- A URL with a space in its host, which `url.Parse` rejects. -/
def spaceInHostURL : GoString := str "http://a b.com/"

/-- The body of a search answer that reports 42 hits, as the MediaWiki API writes it. -/
def searchBody : GoString := str "\x7b\"query\":\x7b\"searchinfo\":\x7b\"totalhits\":42\x7d\x7d\x7d"

/-- The JSON value of `searchBody`. -/
def searchJSON : JSON :=
  .object [(str "query", .object [(str "searchinfo", .object [(str "totalhits", .int 42)])])]

/-- A world whose default client answers every request with status 200 and `searchBody`, and
whose JSON reader reads `searchBody`. -/
def searchWorld : World :=
  ⟨fun _ => (some ⟨200, searchBody⟩, none),
   fun body => if body = searchBody then .ok searchJSON else .error (.other 1),
   fun _ => .error (.other 2)⟩

/-- The client of the tests with a client that answers every request with the given
response. -/
def wikipediaAnswering (resp : Response) : Wikimedia :=
  ⟨⟨str "https://en.wikipedia.org/w/api.php", some (fun _ => (some resp, none)), []⟩⟩

/-- The request `get` builds for `queryURL wikipedia titlesGoogle`. -/
def titlesGoogleRequest : Request :=
  { Method := str "GET",
    URL := { Scheme := str "https", Host := str "en.wikipedia.org", Path := str "/w/api.php",
             RawQuery := str "format=json&titles=Google" },
    Header := [],
    Host := str "en.wikipedia.org" }

/-- The request `get` builds for `queryURL wikipedia formatXmlPhp`. -/
def formatXmlPhpRequest : Request :=
  { Method := str "GET",
    URL := { Scheme := str "https", Host := str "en.wikipedia.org", Path := str "/w/api.php",
             RawQuery := str "action=query&format=json" },
    Header := [],
    Host := str "en.wikipedia.org" }

/-! ## Theorems -/

/-- C1: `New(o)` returns a non-nil error exactly when `o.URL` is empty or `url.Parse` rejects
it; with an error the client is nil, and without one the client is non-nil and holds `o`
unchanged, whatever its other fields are. -/
theorem new_error_iff_url_empty_or_unparsable (o : Options) :
    ((New [o]).2 ≠ none ↔ (o.URL = [] ∨ ∃ err, Parse o.URL = .error err)) ∧
    ((New [o]).2 ≠ none → (New [o]).1 = none) ∧
    ((New [o]).2 = none → ∃ wiki, (New [o]).1 = some wiki ∧ wiki.Options = o) := by
  unfold New
  by_cases h : o.URL = []
  · simp [h]
  · cases hp : Parse o.URL with
    | error err => simp [h, hp]
    | ok u => simp [h, hp]

/-- Witness of C1 at the options of the tests: no error, and a client holding them. -/
theorem new_error_iff_url_empty_or_unparsable_witness :
    (New [wikipediaOptions]).2 = none ∧
    ∃ wiki, (New [wikipediaOptions]).1 = some wiki ∧ wiki.Options = wikipediaOptions :=
  ⟨by decide, (new_error_iff_url_empty_or_unparsable wikipediaOptions).2.2 (by decide)⟩

theorem validMethod_GET : validMethod (str "GET") = true := by decide

theorem canonical_user_agent : CanonicalMIMEHeaderKey (str "User-Agent") = str "User-Agent" := by
  decide

theorem NewRequest_GET (url : GoString) :
    NewRequest (str "GET") url =
      match Parse url with
      | .error err => .error err
      | .ok u =>
        .ok { Method := str "GET", URL := { u with Host := removeEmptyPort u.Host }, Header := [],
              Host := removeEmptyPort u.Host } := by
  have h : str "GET" ≠ [] := by decide
  simp only [NewRequest, if_neg h, validMethod_GET]
  rfl

theorem NewRequest_header {url : GoString} {req : Request}
    (h : NewRequest (str "GET") url = .ok req) : req.Header = [] := by
  rw [NewRequest_GET] at h
  cases hp : Parse url with
  | error err => simp [hp] at h
  | ok u =>
    simp only [hp] at h
    cases h
    rfl

/-- What `get` does once `NewRequest` has built `req0`. -/
theorem get_of_request {w : World} {wiki : Wikimedia} {url : GoString} {req0 : Request}
    (h : NewRequest (str "GET") url = .ok req0) :
    get w wiki url =
      ([.newRequest (str "GET") url, .clientDo wiki.Options.Client.isSome (sentRequest wiki req0)],
       transportOf w wiki (sentRequest wiki req0)) := by
  unfold get transportOf sentRequest
  rw [h]
  cases hc : wiki.Options.Client <;> simp

/-- What `get` does when `NewRequest` fails. -/
theorem get_of_error {w : World} {wiki : Wikimedia} {url : GoString} {err : GoError}
    (h : NewRequest (str "GET") url = .error err) :
    get w wiki url = ([.newRequest (str "GET") url], none, some err) := by
  unfold get
  rw [h]

/-- C5: when request construction succeeds, `get` hands exactly one request to the
transport and returns the transport's answer; that request has a `User-Agent` header if and
only if `Options.UserAgent` is not empty, the header's value is then `Options.UserAgent`,
and with an empty `Options.UserAgent` the request has no header at all. -/
theorem get_user_agent_header (w : World) (wiki : Wikimedia) (url : GoString) (req0 : Request)
    (h : NewRequest (str "GET") url = .ok req0) :
    ∃ req, (get w wiki url).1 =
        [.newRequest (str "GET") url, .clientDo wiki.Options.Client.isSome req] ∧
      (get w wiki url).2 = transportOf w wiki req ∧
      (req.Header.values (str "User-Agent") ≠ none ↔ wiki.Options.UserAgent ≠ []) ∧
      (wiki.Options.UserAgent ≠ [] →
        req.Header.values (str "User-Agent") = some [wiki.Options.UserAgent]) ∧
      (wiki.Options.UserAgent = [] → req.Header = []) := by
  rw [get_of_request h]
  have hh := NewRequest_header h
  refine ⟨sentRequest wiki req0, rfl, rfl, ?_⟩
  unfold sentRequest
  by_cases hua : wiki.Options.UserAgent = []
  · simp [hua, hh, Header.values]
  · simp [hua, hh, Header.values, Header.Set, canonical_user_agent]

/-- Witness of C5: the client of the tests with the user agent `bot`, on its own base URL. -/
theorem get_user_agent_header_witness :
    (∃ req, (get failingWorld botWikipedia botWikipedia.Options.URL).1 =
        [.newRequest (str "GET") botWikipedia.Options.URL,
         .clientDo botWikipedia.Options.Client.isSome req] ∧
      (get failingWorld botWikipedia botWikipedia.Options.URL).2 =
        transportOf failingWorld botWikipedia req ∧
      (req.Header.values (str "User-Agent") ≠ none ↔ botWikipedia.Options.UserAgent ≠ []) ∧
      (botWikipedia.Options.UserAgent ≠ [] →
        req.Header.values (str "User-Agent") = some [botWikipedia.Options.UserAgent]) ∧
      (botWikipedia.Options.UserAgent = [] → req.Header = [])) ∧
    (get failingWorld botWikipedia botWikipedia.Options.URL).1 =
      [.newRequest (str "GET") (str "https://en.wikipedia.org/w/api.php"),
       .clientDo false
         { Method := str "GET",
           URL := { Scheme := str "https", Host := str "en.wikipedia.org",
                    Path := str "/w/api.php" },
           Header := [(str "User-Agent", [str "bot"])],
           Host := str "en.wikipedia.org" }] :=
  ⟨get_user_agent_header failingWorld botWikipedia botWikipedia.Options.URL
    { Method := str "GET",
      URL := { Scheme := str "https", Host := str "en.wikipedia.org", Path := str "/w/api.php" },
      Header := [],
      Host := str "en.wikipedia.org" }
    rfl, by decide⟩

/-- C7, as stated, fails: `http.NewRequest` accepts the string of `TestGet` (a relative
reference with the path `oF` and a fragment), so `get` hands the request to the transport,
and a client whose transport answers makes `get` return a response and no error. -/
theorem get_testGetURL_answered :
    NewRequest (str "GET") testGetURL =
      .ok { Method := str "GET",
            URL := { Path := str "oF", Fragment := str ".com.()389HPFDI*&$@" },
            Header := [],
            Host := [] } ∧
    (get failingWorld answeringWikipedia testGetURL).2 = (some okResponse, none) :=
  ⟨rfl, by decide⟩

/-- C7, amended: for every client and every URL string that `url.Parse` rejects, `get` returns
a nil response and the parse error, and the transport is never called. -/
theorem get_fails_when_url_is_rejected (w : World) (wiki : Wikimedia) (u : GoString)
    (err : GoError) (h : Parse u = .error err) :
    get w wiki u = ([.newRequest (str "GET") u], none, some err) := by
  apply get_of_error
  rw [NewRequest_GET, h]

/-- Witness of C7, amended: a URL with a space in its host. -/
theorem get_fails_when_url_is_rejected_witness :
    get failingWorld answeringWikipedia spaceInHostURL =
      ([.newRequest (str "GET") spaceInHostURL], none,
        some (.url "parse" spaceInHostURL (.invalidHost (str " ")))) :=
  get_fails_when_url_is_rejected failingWorld answeringWikipedia spaceInHostURL _ rfl

/-- What `Query` does on a non-nil map when `NewRequest` fails. -/
theorem Query_of_error {w : World} {wiki : Wikimedia} {q : Values} {err : GoError}
    (h : NewRequest (str "GET") (queryURL wiki q) = .error err) :
    Query w wiki (some q) =
      ([.newRequest (str "GET") (queryURL wiki q)], .returns none (some err)) := by
  simp only [Query, get_of_error h]

/-- What `Query` does on a non-nil map once `NewRequest` has built `req0`, by the answer of
the transport. -/
theorem Query_of_request {w : World} {wiki : Wikimedia} {q : Values} {req0 : Request}
    (h : NewRequest (str "GET") (queryURL wiki q) = .ok req0) :
    Query w wiki (some q) =
      match transportOf w wiki (sentRequest wiki req0) with
      | (_, some err) =>
        ([.newRequest (str "GET") (queryURL wiki q),
          .clientDo wiki.Options.Client.isSome (sentRequest wiki req0)],
         .returns none (some err))
      | (none, none) =>
        ([.newRequest (str "GET") (queryURL wiki q),
          .clientDo wiki.Options.Client.isSome (sentRequest wiki req0)],
         .panics "invalid memory address or nil pointer dereference")
      | (some resp, none) =>
        match decodeBody w resp.Body with
        | .error err =>
          ([.newRequest (str "GET") (queryURL wiki q),
            .clientDo wiki.Options.Client.isSome (sentRequest wiki req0),
            .decode resp.Body],
           .returns none (some err))
        | .ok apiResp =>
          ([.newRequest (str "GET") (queryURL wiki q),
            .clientDo wiki.Options.Client.isSome (sentRequest wiki req0),
            .decode resp.Body],
           .returns (some apiResp) none) := by
  simp only [Query, get_of_request h]
  rcases transportOf w wiki (sentRequest wiki req0) with ⟨resp, err⟩
  cases resp with
  | none => cases err <;> rfl
  | some resp1 =>
    cases err with
    | some err1 => rfl
    | none => cases hd : decodeBody w resp1.Body <;> simp [hd]

/-- C6: when the transport (`Options.Client` if set, else the default client) returns an
error for the request `Query` hands it, `Query` returns a nil response and that same error,
and never calls the decoder; and `Query` never returns both a response and an error. -/
theorem query_passes_transport_error_through (w : World) (wiki : Wikimedia) :
    (∀ (q : Values) (custom : Bool) (req : Request) (e : GoError),
        Event.clientDo custom req ∈ (Query w wiki (some q)).1 →
        (transportOf w wiki req).2 = some e →
        (Query w wiki (some q)).2 = .returns none (some e) ∧
        ∀ body, Event.decode body ∉ (Query w wiki (some q)).1) ∧
    (∀ (q : Option Values) (r : ApiResponse) (e : GoError),
        (Query w wiki q).2 ≠ .returns (some r) (some e)) := by
  constructor
  · intro q custom req e hmem herr
    cases hreq : NewRequest (str "GET") (queryURL wiki q) with
    | error err =>
      rw [Query_of_error hreq] at hmem
      simp at hmem
    | ok req0 =>
      rw [Query_of_request hreq] at hmem ⊢
      rcases ht : transportOf w wiki (sentRequest wiki req0) with ⟨resp, err⟩
      rw [ht] at hmem
      have hreq1 : custom = wiki.Options.Client.isSome ∧ req = sentRequest wiki req0 := by
        cases err with
        | some err1 => simpa using hmem
        | none =>
          cases resp with
          | none => simpa using hmem
          | some resp1 =>
            cases hd : decodeBody w resp1.Body <;> simp only [hd] at hmem <;> simpa using hmem
      obtain ⟨_, hreq1⟩ := hreq1
      subst hreq1
      rw [ht] at herr
      simp only at herr
      subst herr
      simp
  · intro q r e
    cases q with
    | none => simp [Query]
    | some q =>
      cases hreq : NewRequest (str "GET") (queryURL wiki q) with
      | error err => simp [Query_of_error hreq]
      | ok req0 =>
        rw [Query_of_request hreq]
        rcases transportOf w wiki (sentRequest wiki req0) with ⟨resp, err⟩
        cases err with
        | some err1 => simp
        | none =>
          cases resp with
          | none => simp
          | some resp1 => cases hd : decodeBody w resp1.Body <;> simp [hd]

/-- Witness of C6: the default client of `failingWorld` fails with `other 0`. -/
theorem query_passes_transport_error_through_witness :
    (Query failingWorld wikipedia (some titlesGoogle)).2 = .returns none (some (.other 0)) ∧
    ∀ body, Event.decode body ∉ (Query failingWorld wikipedia (some titlesGoogle)).1 :=
  (query_passes_transport_error_through failingWorld wikipedia).1 titlesGoogle false
    titlesGoogleRequest (.other 0) (by decide) rfl

/-- C8: two clients with the same base URL and user agent whose transports return, for
every request, the same error and responses with the same body (whatever their status
codes) get the same result from `Query`; and a response whose body decodes without error
gives the decoded value and no error, whatever its status code. -/
theorem query_ignores_status_code (w : World) (wiki1 wiki2 : Wikimedia)
    (hurl : wiki1.Options.URL = wiki2.Options.URL)
    (hua : wiki1.Options.UserAgent = wiki2.Options.UserAgent)
    (hsame : ∀ req, (transportOf w wiki1 req).2 = (transportOf w wiki2 req).2 ∧
      (transportOf w wiki1 req).1.map Response.Body =
        (transportOf w wiki2 req).1.map Response.Body) :
    (∀ q, (Query w wiki1 q).2 = (Query w wiki2 q).2) ∧
    (∀ (q : Values) (req0 : Request) (resp : Response) (v : ApiResponse),
      NewRequest (str "GET") (queryURL wiki1 q) = .ok req0 →
      transportOf w wiki1 (sentRequest wiki1 req0) = (some resp, none) →
      decodeBody w resp.Body = .ok v →
      (Query w wiki1 (some q)).2 = .returns (some v) none) := by
  constructor
  · intro q
    cases q with
    | none => rfl
    | some q =>
      have hq : queryURL wiki1 q = queryURL wiki2 q := by simp only [queryURL, hurl]
      cases hreq : NewRequest (str "GET") (queryURL wiki1 q) with
      | error err =>
        rw [Query_of_error hreq, Query_of_error (hq ▸ hreq)]
      | ok req0 =>
        have hs : sentRequest wiki1 req0 = sentRequest wiki2 req0 := by
          simp only [sentRequest, hua]
        rw [Query_of_request hreq, Query_of_request (hq ▸ hreq), ← hs]
        obtain ⟨he, hb⟩ := hsame (sentRequest wiki1 req0)
        generalize transportOf w wiki1 (sentRequest wiki1 req0) = t1 at he hb ⊢
        generalize transportOf w wiki2 (sentRequest wiki1 req0) = t2 at he hb ⊢
        obtain ⟨resp1, err1⟩ := t1
        obtain ⟨resp2, err2⟩ := t2
        have he1 : err1 = err2 := he
        have hb1 : resp1.map Response.Body = resp2.map Response.Body := hb
        clear he hb
        subst he1
        cases resp1 with
        | none =>
          cases resp2 with
          | none => cases err1 <;> rfl
          | some r2 => simp at hb1
        | some r1 =>
          cases resp2 with
          | none => simp at hb1
          | some r2 =>
            simp only [Option.map_some', Option.some.injEq] at hb1
            cases err1 with
            | some e => rfl
            | none =>
              simp only [hb1]
              cases decodeBody w r2.Body <;> rfl
  · intro q req0 resp v hreq ht hd
    rw [Query_of_request hreq, ht]
    simp only [hd]

/-- Witness of C8: the same body with the status codes 200 and 500. -/
theorem query_ignores_status_code_witness :
    (∀ q, (Query searchWorld (wikipediaAnswering ⟨200, searchBody⟩) q).2 =
      (Query searchWorld (wikipediaAnswering ⟨500, searchBody⟩) q).2) ∧
    (Query searchWorld (wikipediaAnswering ⟨500, searchBody⟩) (some titlesGoogle)).2 =
      .returns (some {}) none :=
  ⟨(query_ignores_status_code searchWorld (wikipediaAnswering ⟨200, searchBody⟩)
      (wikipediaAnswering ⟨500, searchBody⟩) rfl rfl (fun _ => ⟨rfl, rfl⟩)).1,
   (query_ignores_status_code searchWorld (wikipediaAnswering ⟨500, searchBody⟩)
      (wikipediaAnswering ⟨200, searchBody⟩) rfl rfl (fun _ => ⟨rfl, rfl⟩)).2
      titlesGoogle titlesGoogleRequest ⟨500, searchBody⟩ {} rfl rfl rfl⟩

/-- C9 on the code: a body whose `query.searchinfo` object reports 42 hits under the API's
key `totalhits` is decoded with `TotalHits` left at 0, because the field's tag is `source`;
only a member named `source` reaches the field. -/
theorem query_drops_totalhits :
    (Query searchWorld wikipedia (some titlesGoogle)).2 =
      .returns (some { Query := { SearchInfo := { TotalHits := 0 } } }) none ∧
    decodeApiSearchInfo (.object [(str "totalhits", .int 42)]) {} = .ok { TotalHits := 0 } ∧
    decodeApiSearchInfo (.object [(str "source", .int 42)]) {} = .ok { TotalHits := 42 } :=
  ⟨by decide, rfl, rfl⟩

/-- C10: on the nil map `Query` panics at the assignment of the `format` entry, before any
call is made; on every non-nil map, the empty one included, it does not: it goes on to call
`get` with the query URL, which either fails to build the request and returns that error,
or hands the request to the transport. -/
theorem query_nil_map_panics (w : World) (wiki : Wikimedia) :
    Query w wiki none = ([], .panics "assignment to entry in nil map") ∧
    ∀ q : Values,
      (Query w wiki (some q)).2 ≠ .panics "assignment to entry in nil map" ∧
      ((∃ err, NewRequest (str "GET") (queryURL wiki q) = .error err ∧
          Query w wiki (some q) =
            ([.newRequest (str "GET") (queryURL wiki q)], .returns none (some err))) ∨
       (∃ req events, NewRequest (str "GET") (queryURL wiki q) = .ok req ∧
          (Query w wiki (some q)).1 =
            .newRequest (str "GET") (queryURL wiki q) ::
              .clientDo wiki.Options.Client.isSome (sentRequest wiki req) :: events)) := by
  refine ⟨rfl, fun q => ?_⟩
  cases hreq : NewRequest (str "GET") (queryURL wiki q) with
  | error err =>
    exact ⟨by simp [Query_of_error hreq], Or.inl ⟨err, rfl, Query_of_error hreq⟩⟩
  | ok req0 =>
    rw [Query_of_request hreq]
    rcases transportOf w wiki (sentRequest wiki req0) with ⟨resp, err⟩
    cases resp with
    | none => cases err <;> exact ⟨by simp, Or.inr ⟨req0, _, rfl, rfl⟩⟩
    | some resp1 =>
      cases err with
      | some e => exact ⟨by simp, Or.inr ⟨req0, _, rfl, rfl⟩⟩
      | none =>
        cases hd : decodeBody w resp1.Body <;> simp only [hd] <;>
          exact ⟨by simp, Or.inr ⟨req0, _, rfl, rfl⟩⟩

/-- Witness of C10: the client of the tests on the nil map and on the empty map. -/
theorem query_nil_map_panics_witness :
    Query failingWorld wikipedia none = ([], .panics "assignment to entry in nil map") ∧
    (Query failingWorld wikipedia (some emptyValues)).1.head? =
      some (.newRequest (str "GET") (str "https://en.wikipedia.org/w/api.php?format=json")) ∧
    (Query failingWorld wikipedia (some emptyValues)).2 = .returns none (some (.other 0)) :=
  ⟨(query_nil_map_panics failingWorld wikipedia).1, by decide, by decide⟩

/-! ### The query URL -/

theorem str_marks : str "-_.~" = [45, 95, 46, 126] := by decide
theorem str_reserved : str "$&+,/:;=?@" = [36, 38, 43, 44, 47, 58, 59, 61, 63, 64] := by decide

theorem upperhex_getD (n : Nat) (h : n < 16) : upperhex.getD n 0 = hexDigit n := by
  interval_cases n <;> rfl

theorem shouldEscape_query (c : Nat) :
    shouldEscape c encodeQueryComponent = !isUnreserved c := by
  unfold shouldEscape isUnreserved
  rw [str_marks, str_reserved]
  by_cases h1 : (97 ≤ c ∧ c ≤ 122) ∨ (65 ≤ c ∧ c ≤ 90) ∨ (48 ≤ c ∧ c ≤ 57)
  · rw [if_pos h1]
    rcases h1 with h | h | h <;> simp [h.1, h.2]
  · rw [if_neg h1]
    have h2 : ¬ ((encodeQueryComponent = encodeHost ∨ encodeQueryComponent = encodeZone) ∧
        c ∈ [33, 36, 38, 39, 40, 41, 42, 43, 44, 59, 61, 58, 91, 93, 60, 62, 34]) := by
      simp
    rw [if_neg h2]
    by_cases h3 : c ∈ [45, 95, 46, 126]
    · rw [if_pos h3]
      simp only [List.mem_cons, List.mem_singleton, List.not_mem_nil, or_false] at h3
      rcases h3 with h | h | h | h <;> simp [h]
    · rw [if_neg h3]
      simp only [List.mem_cons, List.mem_singleton, List.not_mem_nil, or_false, not_or] at h3
      have h4 : ¬ (encodeQueryComponent = encodeFragment ∧ c ∈ str "!()*") := by simp
      have hu : ((decide (97 ≤ c) && decide (c ≤ 122)) || (decide (65 ≤ c) && decide (c ≤ 90)) ||
          (decide (48 ≤ c) && decide (c ≤ 57)) ||
          decide (c = 45 ∨ c = 95 ∨ c = 46 ∨ c = 126)) = false := by
        simp only [Bool.or_eq_false_iff, Bool.and_eq_false_iff, decide_eq_false_iff_not]
        omega
      rw [hu, if_neg h4]
      split_ifs <;> rfl

theorem isUnreserved_ne {c : Nat} (h : isUnreserved c = true) :
    c ≠ 32 ∧ c ≠ 37 ∧ c ≠ 38 ∧ c ≠ 43 ∧ c ≠ 61 := by
  simp only [isUnreserved, Bool.or_eq_true, Bool.and_eq_true, decide_eq_true_eq] at h
  omega

theorem hexDigit_unreserved (n : Nat) (h : n < 16) : isUnreserved (hexDigit n) = true := by
  interval_cases n <;> rfl

theorem flatMap_eq_map_of {α β : Type} (f : α → List β) (g : α → β) (s : List α)
    (h : ∀ c ∈ s, f c = [g c]) : s.flatMap f = s.map g := by
  induction s with
  | nil => rfl
  | cons c t ih =>
    rw [List.flatMap_cons, List.map_cons, h c (List.mem_cons_self _ _),
      ih (fun x hx => h x (List.mem_cons_of_mem _ hx))]
    rfl

/-- The byte-by-byte branch of `escape` in query mode is the URL-encoding of the byte. -/
theorem escape_branch_eq (c : Nat) :
    (if c = 32 ∧ encodeQueryComponent = encodeQueryComponent then [43]
     else if shouldEscape c encodeQueryComponent then
       [37, upperhex.getD (c / 16 % 16) 0, upperhex.getD (c % 16) 0]
     else [c]) = percentEncodeByte c := by
  unfold percentEncodeByte
  rw [shouldEscape_query, upperhex_getD _ (Nat.mod_lt _ (by decide)),
    upperhex_getD _ (Nat.mod_lt _ (by decide))]
  by_cases hu : isUnreserved c = true
  · have := isUnreserved_ne hu
    simp [hu, this.1]
  · simp only [Bool.not_eq_true] at hu
    by_cases h32 : c = 32
    · subst h32
      rfl
    · simp [hu, h32]

/-- Go's `QueryEscape` is the URL-encoding of the specification, byte by byte. -/
theorem QueryEscape_eq_percentEncode (s : GoString) : QueryEscape s = percentEncode s := by
  unfold QueryEscape escape percentEncode
  simp only
  split_ifs with h1 h2
  · -- nothing to escape
    have hall : ∀ c ∈ s, percentEncodeByte c = [c] := by
      intro c hc
      have ha := h1.1
      have hb := h1.2
      rw [List.length_eq_zero, List.filter_eq_nil_iff] at ha hb
      have ha := ha c hc
      have hb := hb c hc
      rw [shouldEscape_query] at ha hb
      have hu : isUnreserved c = true := by
        cases hux : isUnreserved c
        · simp [hux] at ha hb
          exact absurd hb ha
        · rfl
      simp [percentEncodeByte, hu]
    rw [flatMap_eq_map_of _ id s hall, List.map_id]
  · -- only spaces to rewrite
    symm
    apply flatMap_eq_map_of
    intro c hc
    rw [List.length_eq_zero, List.filter_eq_nil_iff] at h2
    have hb := h2 c hc
    rw [shouldEscape_query] at hb
    by_cases h32 : c = 32
    · subst h32
      rfl
    · have hu : isUnreserved c = true := by
        cases hux : isUnreserved c
        · simp [hux, h32] at hb
        · rfl
      simp [percentEncodeByte, hu, h32]
  · congr 1
    funext c
    simpa using escape_branch_eq c

theorem intercalate_amp_cons (p : GoString) (t : List GoString) :
    [38].intercalate (p :: t) = p ++ t.flatMap (fun x => 38 :: x) := by
  induction t generalizing p with
  | nil => simp [List.intercalate]
  | cons q r ih =>
    have h := ih q
    simp only [List.intercalate, List.intersperse_cons_cons, List.flatten_cons,
      List.flatMap_cons] at h ⊢
    rw [h]
    simp

/-- The buffer loop of `Encode` on a non-empty buffer: every pair is appended after a `&`. -/
theorem foldl_pairs (ps : List GoString) (buf : GoString) (hbuf : buf ≠ []) :
    ps.foldl (fun buf p => (if buf.length > 0 then buf ++ [38] else buf) ++ p) buf =
      buf ++ ps.flatMap (fun x => 38 :: x) := by
  induction ps generalizing buf with
  | nil => simp
  | cons p t ih =>
    have hlen : buf.length > 0 := List.length_pos.mpr hbuf
    rw [List.foldl_cons, if_pos hlen, ih _ (by simp), List.flatMap_cons]
    simp

/-- The buffer loop of `Encode` from the empty buffer joins the pairs by `&`. -/
theorem foldl_pairs_nil (ps : List GoString) (hne : ∀ p ∈ ps, p ≠ []) :
    ps.foldl (fun buf p => (if buf.length > 0 then buf ++ [38] else buf) ++ p) [] =
      [38].intercalate ps := by
  cases ps with
  | nil => simp [List.intercalate]
  | cons p t =>
    rw [List.foldl_cons, intercalate_amp_cons]
    have hp : p ≠ [] := hne p (List.mem_cons_self _ _)
    simpa using foldl_pairs t p hp

/-- The two nested loops of `Encode` are one loop over the pairs in order. -/
theorem foldl_keys_values (g : GoString → List GoString) (keys : List GoString)
    (init : GoString) :
    keys.foldl
        (fun buf k =>
          (g k).foldl
            (fun buf val =>
              (if buf.length > 0 then buf ++ [38] else buf) ++ QueryEscape k ++ [61] ++
                QueryEscape val)
            buf)
        init =
      (keys.flatMap fun k => (g k).map fun val => encodedPair k val).foldl
        (fun buf p => (if buf.length > 0 then buf ++ [38] else buf) ++ p) init := by
  induction keys generalizing init with
  | nil => rfl
  | cons k t ih =>
    rw [List.foldl_cons, List.flatMap_cons, List.foldl_append, ih, List.foldl_map]
    congr 1
    congr 1
    funext buf val
    simp only [encodedPair, QueryEscape_eq_percentEncode, List.append_assoc]

theorem encodedPair_ne_nil (k val : GoString) : encodedPair k val ≠ [] := by
  simp [encodedPair]

/-- Go's `Values.Encode` is the standard URL-encoding of the map. -/
theorem Encode_eq_formEncode (v : Values) : v.Encode = formEncode v := by
  unfold Values.Encode formEncode encodedPairsOf
  split_ifs with h
  · have hk : v.keys = [] := by
      simp only [Values.keys]
      rw [List.length_eq_zero] at h
      rw [h]
      rfl
    rw [hk]
    rfl
  · rw [foldl_keys_values, foldl_pairs_nil]
    intro p hp
    simp only [List.mem_flatMap, List.mem_map] at hp
    obtain ⟨k, _, val, _, rfl⟩ := hp
    exact encodedPair_ne_nil k val

theorem keys_set (v : Values) (k : GoString) (vs : List GoString) :
    (v.set k vs).keys = k :: v.keys.filter (fun x => decide (x ≠ k)) := by
  simp only [Values.keys, Values.set, List.map_cons, List.filter_map]
  rfl

theorem get_set_self (v : Values) (k : GoString) (vs : List GoString) :
    (v.set k vs).get k = vs := by
  simp [Values.get, Values.set]

theorem find_filter_ne (l : List (GoString × List GoString)) (k x : GoString) (h : x ≠ k) :
    (l.filter (fun e => decide (e.1 ≠ k))).find? (fun e => e.1 == x) =
      l.find? (fun e => e.1 == x) := by
  induction l with
  | nil => rfl
  | cons e t ih =>
    by_cases hek : e.1 = k
    · have hex : (e.1 == x) = false := by
        rw [hek]
        exact beq_false_of_ne (Ne.symm h)
      rw [List.filter_cons_of_neg (by simp [hek]), List.find?_cons_of_neg _ (by simp [hex]), ih]
    · simp only [List.filter_cons, hek, ne_eq, not_false_eq_true, decide_True, if_true,
        List.find?_cons]
      rw [ih]

theorem get_set_ne (v : Values) (k x : GoString) (vs : List GoString) (h : x ≠ k) :
    (v.set k vs).get x = v.get x := by
  have hkx : (k == x) = false := beq_false_of_ne (Ne.symm h)
  simp only [Values.get, Values.set, List.find?_cons, hkx]
  rw [find_filter_ne _ _ _ h]

theorem stringLE_refl (a : GoString) : stringLE a a = true := by
  induction a with
  | nil => rfl
  | cons c t ih => simp [stringLE, ih]

theorem stringLE_total (a b : GoString) : stringLE a b = true ∨ stringLE b a = true := by
  induction a generalizing b with
  | nil => exact Or.inl rfl
  | cons c t ih =>
    cases b with
    | nil => exact Or.inr rfl
    | cons d u =>
      simp only [stringLE, Bool.or_eq_true, Bool.and_eq_true, decide_eq_true_eq]
      rcases Nat.lt_trichotomy c d with h | h | h
      · exact Or.inl (Or.inl h)
      · rcases ih u with h2 | h2
        · exact Or.inl (Or.inr ⟨h, h2⟩)
        · exact Or.inr (Or.inr ⟨h.symm, h2⟩)
      · exact Or.inr (Or.inl h)

theorem stringLE_trans {a b c : GoString} (hab : stringLE a b = true)
    (hbc : stringLE b c = true) : stringLE a c = true := by
  induction a generalizing b c with
  | nil => rfl
  | cons x t ih =>
    cases b with
    | nil => simp [stringLE] at hab
    | cons y u =>
      cases c with
      | nil => simp [stringLE] at hbc
      | cons z w =>
        simp only [stringLE, Bool.or_eq_true, Bool.and_eq_true, decide_eq_true_eq] at hab hbc ⊢
        rcases hab with h1 | ⟨h1, h1t⟩
        · rcases hbc with h2 | ⟨h2, _⟩
          · exact Or.inl (by omega)
          · exact Or.inl (by omega)
        · rcases hbc with h2 | ⟨h2, h2t⟩
          · exact Or.inl (by omega)
          · exact Or.inr ⟨by omega, ih h1t h2t⟩

theorem stringLE_antisymm {a b : GoString} (hab : stringLE a b = true)
    (hba : stringLE b a = true) : a = b := by
  induction a generalizing b with
  | nil =>
    cases b with
    | nil => rfl
    | cons d u => simp [stringLE] at hba
  | cons c t ih =>
    cases b with
    | nil => simp [stringLE] at hab
    | cons d u =>
      simp only [stringLE, Bool.or_eq_true, Bool.and_eq_true, decide_eq_true_eq] at hab hba
      rcases hab with h1 | ⟨h1, h1t⟩
      · rcases hba with h2 | ⟨h2, _⟩ <;> omega
      · rcases hba with h2 | ⟨_, h2t⟩
        · omega
        · rw [h1, ih h1t h2t]

/-- Any ascending arrangement of the same keys is the one `sortStrings` returns. -/
theorem sortStrings_unique (l l2 : List GoString) (hp : l2.Perm l)
    (hs : l2.Sorted (fun a b => stringLE a b = true)) : sortStrings l = l2 := by
  haveI : IsAntisymm GoString (fun a b => stringLE a b = true) := ⟨fun _ _ => stringLE_antisymm⟩
  haveI : IsTotal GoString (fun a b => stringLE a b = true) := ⟨stringLE_total⟩
  haveI : IsTrans GoString (fun a b => stringLE a b = true) := ⟨fun _ _ _ => stringLE_trans⟩
  exact List.eq_of_perm_of_sorted ((List.perm_insertionSort _ l).trans hp.symm)
    (List.sorted_insertionSort _ l) hs

theorem sortStrings_sorted (l : List GoString) :
    (sortStrings l).Sorted (fun a b => stringLE a b = true) := by
  haveI : IsTotal GoString (fun a b => stringLE a b = true) := ⟨stringLE_total⟩
  haveI : IsTrans GoString (fun a b => stringLE a b = true) := ⟨fun _ _ _ => stringLE_trans⟩
  exact List.sorted_insertionSort _ l

theorem sortStrings_perm (l : List GoString) : (sortStrings l).Perm l :=
  List.perm_insertionSort _ l

/-- The first call `Query` makes on a non-nil map is `http.NewRequest` on the query URL. -/
theorem Query_events_head (w : World) (wiki : Wikimedia) (q : Values) :
    ∃ events, (Query w wiki (some q)).1 = .newRequest (str "GET") (queryURL wiki q) :: events := by
  cases hreq : NewRequest (str "GET") (queryURL wiki q) with
  | error err => exact ⟨[], by simp [Query_of_error hreq]⟩
  | ok req0 =>
    rw [Query_of_request hreq]
    rcases transportOf w wiki (sentRequest wiki req0) with ⟨resp, err⟩
    cases resp with
    | none => cases err <;> exact ⟨_, rfl⟩
    | some resp1 =>
      cases err with
      | some e => exact ⟨_, rfl⟩
      | none => cases hd : decodeBody w resp1.Body <;> simp only [hd] <;> exact ⟨_, rfl⟩

theorem mem_keys_set (v : Values) (k x : GoString) (vs : List GoString) :
    x ∈ (v.set k vs).keys ↔ x = k ∨ x ∈ v.keys := by
  rw [keys_set]
  simp only [List.mem_cons, List.mem_filter, decide_eq_true_eq]
  constructor
  · rintro (h | ⟨h, _⟩)
    · exact Or.inl h
    · exact Or.inr h
  · rintro (h | h)
    · exact Or.inl h
    · by_cases hx : x = k
      · exact Or.inl hx
      · exact Or.inr ⟨h, hx⟩

/-- C3: the URL `Query` passes to `get` is the base URL, then `?`, then the standard
URL-encoding of the map with `format` set to `["json"]`: every key and value
percent-encoded byte by byte, each value of a key giving one `key=value` pair in the order of
the values, the pairs joined by `&` (the keys in ascending order). -/
theorem query_url_is_standard_encoding (w : World) (wiki : Wikimedia) (q : Values) :
    (∃ events, (Query w wiki (some q)).1 =
      .newRequest (str "GET")
        (wiki.Options.URL ++ str "?" ++ formEncode (q.set (str "format") [str "json"])) ::
        events) ∧
    (q.set (str "format") [str "json"]).get (str "format") = [str "json"] ∧
    (∀ k, k ≠ str "format" → (q.set (str "format") [str "json"]).get k = q.get k) ∧
    (∀ k, k ∈ (q.set (str "format") [str "json"]).keys ↔ k = str "format" ∨ k ∈ q.keys) := by
  refine ⟨?_, get_set_self _ _ _, fun k hk => get_set_ne _ _ _ _ hk, fun k => mem_keys_set _ _ _ _⟩
  obtain ⟨events, h⟩ := Query_events_head w wiki q
  refine ⟨events, ?_⟩
  rw [h, queryURL, Encode_eq_formEncode]

/-- A byte of an encoded key or value is unreserved, `+` or `%`. -/
theorem mem_percentEncode {x : Nat} {s : GoString} (h : x ∈ percentEncode s) :
    isUnreserved x = true ∨ x = 43 ∨ x = 37 := by
  simp only [percentEncode, List.mem_flatMap] at h
  obtain ⟨c, _, hx⟩ := h
  unfold percentEncodeByte at hx
  split_ifs at hx with hu h32
  · simp only [List.mem_singleton] at hx
    exact Or.inl (hx ▸ hu)
  · simp only [List.mem_singleton] at hx
    exact Or.inr (Or.inl hx)
  · simp only [List.mem_cons, List.mem_singleton, List.not_mem_nil, or_false] at hx
    rcases hx with hx | hx | hx
    · exact Or.inr (Or.inr hx)
    · exact Or.inl (hx ▸ hexDigit_unreserved _ (Nat.mod_lt _ (by decide)))
    · exact Or.inl (hx ▸ hexDigit_unreserved _ (Nat.mod_lt _ (by decide)))

theorem amp_not_mem_percentEncode (s : GoString) : 38 ∉ percentEncode s := by
  intro h
  rcases mem_percentEncode h with h | h | h
  · exact (isUnreserved_ne h).2.2.1 rfl
  · omega
  · omega

theorem eq_not_mem_percentEncode (s : GoString) : 61 ∉ percentEncode s := by
  intro h
  rcases mem_percentEncode h with h | h | h
  · exact (isUnreserved_ne h).2.2.2.2 rfl
  · omega
  · omega

theorem amp_not_mem_encodedPair (k val : GoString) : 38 ∉ encodedPair k val := by
  simp only [encodedPair, List.mem_append, List.mem_singleton, not_or]
  exact ⟨⟨amp_not_mem_percentEncode k, by omega⟩, amp_not_mem_percentEncode val⟩

theorem cut_append (a b : GoString) (sep : Nat) (h : sep ∉ a) :
    cut (a ++ sep :: b) sep = (a, b, true) := by
  induction a with
  | nil => simp [cut]
  | cons c t ih =>
    have hc : c ≠ sep := fun e => h (e ▸ List.mem_cons_self _ _)
    have ht : sep ∉ t := fun e => h (List.mem_cons_of_mem _ e)
    have ih2 := ih ht
    rw [List.cons_append]
    unfold cut
    rw [if_neg hc, ih2]

theorem cut_encodedPair (k val : GoString) :
    cut (encodedPair k val) 61 = (percentEncode k, percentEncode val, true) := by
  unfold encodedPair
  rw [List.append_assoc]
  exact cut_append _ _ _ (eq_not_mem_percentEncode k)

/-- The pairs read back from the standard URL-encoding of a map with at least one value are
the encoded pairs of the map, keys ascending. -/
theorem queryPairs_formEncode (v : Values)
    (h : encodedPairsOf v (sortStrings v.keys) ≠ []) :
    queryPairs (formEncode v) =
      (sortStrings v.keys).flatMap fun k =>
        (v.get k).map fun val => (percentEncode k, percentEncode val) := by
  unfold queryPairs formEncode
  have hsplit : ([38].intercalate (encodedPairsOf v (sortStrings v.keys))).splitOn 38 =
      encodedPairsOf v (sortStrings v.keys) := by
    refine List.splitOn_intercalate _ 38 ?_ h
    intro p hp
    simp only [encodedPairsOf, List.mem_flatMap, List.mem_map] at hp
    obtain ⟨k, _, val, _, rfl⟩ := hp
    exact amp_not_mem_encodedPair k val
  rw [hsplit]
  have hfilter : (encodedPairsOf v (sortStrings v.keys)).filter
      (fun piece => decide (piece ≠ [])) = encodedPairsOf v (sortStrings v.keys) := by
    rw [List.filter_eq_self]
    intro p hp
    simp only [encodedPairsOf, List.mem_flatMap, List.mem_map] at hp
    obtain ⟨k, _, val, _, rfl⟩ := hp
    simpa using encodedPair_ne_nil k val
  rw [hfilter]
  unfold encodedPairsOf
  rw [List.map_flatMap]
  congr 1
  funext k
  rw [List.map_map]
  congr 1
  funext val
  simp only [Function.comp, cut_encodedPair]

/-- An encoded key or value made of unreserved bytes only is the key or value itself. -/
theorem percentEncode_unreserved (s : GoString)
    (h : ∀ x ∈ percentEncode s, isUnreserved x = true) : percentEncode s = s := by
  induction s with
  | nil => rfl
  | cons c t ih =>
    have hsplit : percentEncode (c :: t) = percentEncodeByte c ++ percentEncode t := by
      simp [percentEncode]
    rw [hsplit] at h ⊢
    have hc : isUnreserved c = true := by
      cases hu : isUnreserved c
      · exfalso
        unfold percentEncodeByte at h
        rw [hu] at h
        simp only [Bool.false_eq_true, if_false] at h
        split_ifs at h with h32
        · have := h 43 (by simp)
          exact absurd rfl (isUnreserved_ne this).2.2.2.1
        · have := h 37 (by simp)
          exact absurd rfl (isUnreserved_ne this).2.1
      · rfl
    have hb : percentEncodeByte c = [c] := by simp [percentEncodeByte, hc]
    rw [hb, ih (fun x hx => h x (List.mem_append_right _ hx))]
    rfl

theorem percentEncode_format : percentEncode (str "format") = str "format" := by decide

theorem percentEncode_json : percentEncode (str "json") = str "json" := by decide

theorem percentEncode_eq_format {k : GoString} (h : percentEncode k = str "format") :
    k = str "format" := by
  rw [← h]
  symm
  apply percentEncode_unreserved
  rw [h]
  decide

/-- Of the encoded pairs of a list of distinct keys, those with the key `format` are the
pairs of the key `format` itself. -/
theorem filter_format_pairs (g : GoString → List GoString) (l : List GoString) (hl : l.Nodup)
    (hg : g (str "format") = [str "json"]) :
    (l.flatMap fun k => (g k).map fun val => (percentEncode k, percentEncode val)).filter
        (fun p => decide (p.1 = str "format")) =
      if str "format" ∈ l then [(str "format", str "json")] else [] := by
  induction l with
  | nil => rfl
  | cons k t ih =>
    rw [List.nodup_cons] at hl
    rw [List.flatMap_cons, List.filter_append, ih hl.2]
    by_cases hk : k = str "format"
    · subst hk
      have hnot : str "format" ∉ t := hl.1
      rw [hg, if_neg hnot]
      simp [percentEncode_format, percentEncode_json]
    · have hne : ¬ (percentEncode k = str "format") := fun e =>
        hk (percentEncode_eq_format e)
      have hnil : ((g k).map fun val => (percentEncode k, percentEncode val)).filter
          (fun p => decide (p.1 = str "format")) = [] := by
        rw [List.filter_eq_nil_iff]
        intro p hp
        simp only [List.mem_map] at hp
        obtain ⟨val, _, rfl⟩ := hp
        simpa using hne
      rw [hnil, List.nil_append]
      have hmem : (str "format" ∈ k :: t) ↔ (str "format" ∈ t) := by
        simp only [List.mem_cons]
        constructor
        · rintro (h | h)
          · exact absurd h.symm hk
          · exact h
        · exact Or.inr
      simp only [hmem]

theorem keys_nodup (v : Values) : v.keys.Nodup := v.nodup

theorem cut_not_mem (s : GoString) (sep : Nat) (h : sep ∉ s) : cut s sep = (s, [], false) := by
  induction s with
  | nil => rfl
  | cons c t ih =>
    have hc : c ≠ sep := fun e => h (e ▸ List.mem_cons_self _ _)
    have ht : sep ∉ t := fun e => h (List.mem_cons_of_mem _ e)
    unfold cut
    rw [if_neg hc, ih ht]

/-- What `getScheme` leaves of a URL that ends in `?` and a text `qs`, when the `?` is the
first one: the whole URL, or a tail of it that still ends in that `?` and `qs`. -/
theorem getSchemeLoop_rest (raw qs : GoString) (l : GoString) (i : Nat) (hl : 63 ∉ l)
    (scheme rest : GoString)
    (h : getSchemeLoop raw (l ++ 63 :: qs) i = .ok (scheme, rest)) :
    rest = raw ∨ ∃ r, rest = r ++ 63 :: qs ∧ 63 ∉ r := by
  induction l generalizing i with
  | nil =>
    simp [getSchemeLoop] at h
    exact Or.inl h.2.symm
  | cons c t ih =>
    have hc : c ≠ 63 := fun e => hl (e ▸ List.mem_cons_self _ _)
    have ht : 63 ∉ t := fun e => hl (List.mem_cons_of_mem _ e)
    rw [List.cons_append] at h
    unfold getSchemeLoop at h
    split_ifs at h with h1 h2 h3 h4 h5
    · exact ih _ ht h
    · simp only [Except.ok.injEq, Prod.mk.injEq] at h
      exact Or.inl h.2.symm
    · exact ih _ ht h
    · simp only [Except.ok.injEq, Prod.mk.injEq] at h
      exact Or.inr ⟨t, h.2.symm, ht⟩
    · simp only [Except.ok.injEq, Prod.mk.injEq] at h
      exact Or.inl h.2.symm

theorem hasSuffix_question_false (r qs : GoString) (hne : qs ≠ []) (hq : 63 ∉ qs) :
    hasSuffix (r ++ 63 :: qs) (str "?") = false := by
  have hstr : str "?" = [63] := by decide
  obtain ⟨init, last, rfl⟩ : ∃ init last, qs = init ++ [last] := by
    rcases List.eq_nil_or_concat qs with h | ⟨init, last, h⟩
    · exact absurd h hne
    · exact ⟨init, last, by simpa using h⟩
  have hlast : last ≠ 63 := fun e => hq (by simp [e])
  simp [hasSuffix, hstr, List.isPrefixOf, hlast, Ne.symm hlast]

theorem setPath_RawQuery {u v : URL} {p : GoString} (h : setPath u p = .ok v) :
    v.RawQuery = u.RawQuery := by
  unfold setPath at h
  cases hu : unescape p encodePath with
  | error e => simp [hu] at h
  | ok path =>
    simp only [hu, Except.ok.injEq] at h
    rw [← h]

/-- The `RawQuery` that `parse` gives a URL made of a text without `?`, a `?` and a
non-empty text without `?` is that last text. -/
theorem parse_RawQuery (b qs : GoString) (hb : 63 ∉ b) (hne : qs ≠ []) (hq : 63 ∉ qs)
    (u : URL) (h : parse (b ++ 63 :: qs) false = .ok u) : u.RawQuery = qs := by
  unfold parse at h
  split_ifs at h with h1 h2 h3
  · have : (63 : Nat) ∈ str "*" := by
      rw [← h3]
      simp
    exact absurd this (by decide)
  · cases hg : getScheme (b ++ 63 :: qs) with
    | error e => simp [hg] at h
    | ok sr =>
      obtain ⟨scheme, rest0⟩ := sr
      have hrest : ∃ r, rest0 = r ++ 63 :: qs ∧ 63 ∉ r := by
        rcases getSchemeLoop_rest (b ++ 63 :: qs) qs b 0 hb scheme rest0 hg with h0 | h0
        · exact ⟨b, h0, hb⟩
        · exact h0
      obtain ⟨r, rfl, hr⟩ := hrest
      simp only [hg, hasSuffix_question_false r qs hne hq, Bool.false_and, Bool.false_eq_true,
        if_false, cut_append r qs 63 hr] at h
      split_ifs at h with c1 c2 c3 c4 c5
      · simp only [Except.ok.injEq] at h
        rw [← h]
      · split at h
        · exact absurd h (by simp)
        · exact setPath_RawQuery h
      · exact setPath_RawQuery h
      · exact setPath_RawQuery h

/-- The `RawQuery` of a parsed URL made of a base without `?` and `#`, a `?` and a non-empty
text without `?` and `#` is that text. -/
theorem Parse_RawQuery (b qs : GoString) (hb : 63 ∉ b) (hb2 : 35 ∉ b) (hne : qs ≠ [])
    (hq : 63 ∉ qs) (hq2 : 35 ∉ qs) (u : URL) (h : Parse (b ++ 63 :: qs) = .ok u) :
    u.RawQuery = qs := by
  have h35 : 35 ∉ b ++ 63 :: qs := by
    simp only [List.mem_append, List.mem_cons, not_or]
    exact ⟨hb2, by decide, hq2⟩
  unfold Parse at h
  rw [cut_not_mem _ _ h35] at h
  cases hp : parse (b ++ 63 :: qs) false with
  | error e => simp [hp] at h
  | ok url =>
    simp only [hp, if_true, Except.ok.injEq] at h
    rw [← h]
    exact parse_RawQuery b qs hb hne hq url hp

theorem isUnreserved_ne_hash {c : Nat} (h : isUnreserved c = true) : c ≠ 35 ∧ c ≠ 63 := by
  simp only [isUnreserved, Bool.or_eq_true, Bool.and_eq_true, decide_eq_true_eq] at h
  omega

theorem mem_encodedPair {x : Nat} {k val : GoString} (h : x ∈ encodedPair k val) :
    isUnreserved x = true ∨ x = 43 ∨ x = 37 ∨ x = 61 := by
  simp only [encodedPair, List.mem_append, List.mem_singleton] at h
  rcases h with (h | h) | h
  · rcases mem_percentEncode h with h | h | h
    · exact Or.inl h
    · exact Or.inr (Or.inl h)
    · exact Or.inr (Or.inr (Or.inl h))
  · exact Or.inr (Or.inr (Or.inr h))
  · rcases mem_percentEncode h with h | h | h
    · exact Or.inl h
    · exact Or.inr (Or.inl h)
    · exact Or.inr (Or.inr (Or.inl h))

/-- A byte of the standard encoding of a map is unreserved or one of `+`, `%`, `=`, `&`. -/
theorem mem_formEncode {x : Nat} {v : Values} (h : x ∈ formEncode v) :
    isUnreserved x = true ∨ x = 43 ∨ x = 37 ∨ x = 61 ∨ x = 38 := by
  unfold formEncode at h
  have hpair : ∀ p ∈ encodedPairsOf v (sortStrings v.keys), x ∈ p →
      isUnreserved x = true ∨ x = 43 ∨ x = 37 ∨ x = 61 ∨ x = 38 := by
    intro p hp hx
    simp only [encodedPairsOf, List.mem_flatMap, List.mem_map] at hp
    obtain ⟨k, _, val, _, rfl⟩ := hp
    rcases mem_encodedPair hx with h | h | h | h
    · exact Or.inl h
    · exact Or.inr (Or.inl h)
    · exact Or.inr (Or.inr (Or.inl h))
    · exact Or.inr (Or.inr (Or.inr (Or.inl h)))
  generalize encodedPairsOf v (sortStrings v.keys) = ps at h hpair
  cases ps with
  | nil => simp [List.intercalate] at h
  | cons p t =>
    rw [intercalate_amp_cons] at h
    simp only [List.mem_append, List.mem_flatMap, List.mem_cons] at h
    rcases h with h | ⟨y, hy, h | h⟩
    · exact hpair p (List.mem_cons_self _ _) h
    · exact Or.inr (Or.inr (Or.inr (Or.inr h)))
    · exact hpair y (List.mem_cons_of_mem _ hy) h

theorem question_not_mem_formEncode (v : Values) : 63 ∉ formEncode v := by
  intro h
  rcases mem_formEncode h with h | h | h | h | h
  · exact (isUnreserved_ne_hash h).2 rfl
  all_goals omega

theorem hash_not_mem_formEncode (v : Values) : 35 ∉ formEncode v := by
  intro h
  rcases mem_formEncode h with h | h | h | h | h
  · exact (isUnreserved_ne_hash h).1 rfl
  all_goals omega

/-- The standard encoding of a map with `format` set to `["json"]` has exactly one pair
with the key `format`, and its value is `json`. -/
theorem format_pairs_formEncode (q : Values) :
    (queryPairs (formEncode (q.set (str "format") [str "json"]))).filter
        (fun p => decide (p.1 = str "format")) =
      [(str "format", str "json")] := by
  have hmem : str "format" ∈ sortStrings (q.set (str "format") [str "json"]).keys :=
    (sortStrings_perm _).mem_iff.mpr ((mem_keys_set _ _ _ _).mpr (Or.inl rfl))
  have hne : encodedPairsOf (q.set (str "format") [str "json"])
      (sortStrings (q.set (str "format") [str "json"]).keys) ≠ [] := by
    intro hnil
    have : encodedPair (str "format") (str "json") ∈
        encodedPairsOf (q.set (str "format") [str "json"])
          (sortStrings (q.set (str "format") [str "json"]).keys) := by
      simp only [encodedPairsOf, List.mem_flatMap, List.mem_map]
      exact ⟨str "format", hmem, str "json", by simp [get_set_self], rfl⟩
    rw [hnil] at this
    exact absurd this (List.not_mem_nil _)
  rw [queryPairs_formEncode _ hne,
    filter_format_pairs _ _ ((sortStrings_perm _).nodup_iff.mpr (keys_nodup _))
      (get_set_self _ _ _),
    if_pos hmem]

theorem formEncode_set_ne_nil (q : Values) :
    formEncode (q.set (str "format") [str "json"]) ≠ [] := by
  intro h
  have := format_pairs_formEncode q
  rw [h] at this
  exact absurd this (by decide)

theorem sentRequest_URL (wiki : Wikimedia) (req : Request) :
    (sentRequest wiki req).URL = req.URL := by
  unfold sentRequest
  split_ifs <;> rfl

/-- A request `Query` hands to the transport is the one `NewRequest` built from the query URL,
with the user agent set. -/
theorem Query_clientDo_mem {w : World} {wiki : Wikimedia} {q : Values} {custom : Bool}
    {req : Request} (hmem : Event.clientDo custom req ∈ (Query w wiki (some q)).1) :
    ∃ req0, NewRequest (str "GET") (queryURL wiki q) = .ok req0 ∧
      req = sentRequest wiki req0 := by
  cases hreq : NewRequest (str "GET") (queryURL wiki q) with
  | error err =>
    rw [Query_of_error hreq] at hmem
    simp at hmem
  | ok req0 =>
    refine ⟨req0, rfl, ?_⟩
    rw [Query_of_request hreq] at hmem
    rcases ht : transportOf w wiki (sentRequest wiki req0) with ⟨resp, err⟩
    rw [ht] at hmem
    have hreq1 : custom = wiki.Options.Client.isSome ∧ req = sentRequest wiki req0 := by
      cases err with
      | some err1 => simpa using hmem
      | none =>
        cases resp with
        | none => simpa using hmem
        | some resp1 =>
          cases hd : decodeBody w resp1.Body <;> simp only [hd] at hmem <;> simpa using hmem
    exact hreq1.2

/-- The `RawQuery` of the request `NewRequest` builds is the one `Parse` gives the URL. -/
theorem NewRequest_RawQuery {url : GoString} {req : Request}
    (h : NewRequest (str "GET") url = .ok req) :
    ∃ u, Parse url = .ok u ∧ req.URL.RawQuery = u.RawQuery := by
  rw [NewRequest_GET] at h
  cases hp : Parse url with
  | error err => simp [hp] at h
  | ok u =>
    simp only [hp] at h
    cases h
    exact ⟨u, rfl, rfl⟩

theorem hasSuffix_question_of_not_mem (r : GoString) (hr : 63 ∉ r) :
    hasSuffix r (str "?") = false := by
  have hstr : str "?" = [63] := by decide
  rcases List.eq_nil_or_concat r with h | ⟨init, last, h⟩
  · subst h
    decide
  · subst h
    have hlast : last ≠ 63 := fun e => hr (by simp [e])
    simp [hasSuffix, hstr, List.isPrefixOf, hlast, Ne.symm hlast]

/-- The scheme `getScheme` finds in a URL without `?` is the one it finds when a `?` and a
text follow the URL, and what it leaves is followed by them. -/
theorem getSchemeLoop_extend (b qs : GoString) (l : GoString) (i : Nat)
    (hi : i + l.length = b.length) (hl : 63 ∉ l) (scheme rest : GoString)
    (h : getSchemeLoop b l i = .ok (scheme, rest)) :
    (rest = b ∧ getSchemeLoop (b ++ 63 :: qs) (l ++ 63 :: qs) i = .ok (scheme, b ++ 63 :: qs)) ∨
    (63 ∉ rest ∧
      getSchemeLoop (b ++ 63 :: qs) (l ++ 63 :: qs) i = .ok (scheme, rest ++ 63 :: qs)) := by
  induction l generalizing i with
  | nil =>
    simp only [getSchemeLoop, Except.ok.injEq, Prod.mk.injEq] at h
    left
    refine ⟨h.2.symm, ?_⟩
    simp [getSchemeLoop, ← h.1]
  | cons c t ih =>
    have hc : c ≠ 63 := fun e => hl (e ▸ List.mem_cons_self _ _)
    have ht : 63 ∉ t := fun e => hl (List.mem_cons_of_mem _ e)
    have hi2 : (i + 1) + t.length = b.length := by
      simp only [List.length_cons] at hi
      omega
    rw [List.cons_append]
    unfold getSchemeLoop at h ⊢
    split_ifs at h ⊢ with h1 h2 h3 h4 h5
    · exact ih _ hi2 ht h
    · simp only [Except.ok.injEq, Prod.mk.injEq] at h
      exact Or.inl ⟨h.2.symm, by rw [← h.1]⟩
    · exact ih _ hi2 ht h
    · simp only [Except.ok.injEq, Prod.mk.injEq] at h
      right
      refine ⟨h.2 ▸ ht, ?_⟩
      rw [← h.1, ← h.2, List.take_append_of_le_length (by omega)]
    · simp only [Except.ok.injEq, Prod.mk.injEq] at h
      exact Or.inl ⟨h.2.symm, by rw [← h.1]⟩

theorem setPath_ok_of {u v : URL} {p : GoString} (h : setPath u p = .ok v) (u2 : URL) :
    ∃ v2, setPath u2 p = .ok v2 := by
  unfold setPath at h ⊢
  cases hu : unescape p encodePath with
  | error e => simp [hu] at h
  | ok path => exact ⟨_, rfl⟩

theorem stringContainsCTLByte_append (a b : GoString) :
    stringContainsCTLByte (a ++ b) = (stringContainsCTLByte a || stringContainsCTLByte b) := by
  simp [stringContainsCTLByte, List.any_append]

/-- When `parse` accepts a URL without `?`, it accepts the URL followed by `?` and a
non-empty text that has no control byte and no `?`. -/
theorem parse_extend (b qs : GoString) (hb : 63 ∉ b) (hne : qs ≠ []) (hq : 63 ∉ qs)
    (hctl : stringContainsCTLByte (63 :: qs) = false) (u0 : URL)
    (h : parse b false = .ok u0) : ∃ u, parse (b ++ 63 :: qs) false = .ok u := by
  by_cases hstar : b = str "*"
  · subst hstar
    have hs : str "*" = [42] := by decide
    have hslash : str "/" = [47] := by decide
    have hss : str "//" = [47, 47] := by decide
    have hctl2 : stringContainsCTLByte ([42] ++ 63 :: qs) = false := by
      rw [stringContainsCTLByte_append, hctl]
      decide
    have hsuf := hasSuffix_question_false [42] qs hne hq
    have hcut := cut_append [42] qs 63 (by decide)
    rw [hs]
    simp only [List.singleton_append] at hctl2 hsuf hcut
    unfold parse
    simp only [List.singleton_append, hctl2, Bool.false_eq_true, if_false, false_and,
      List.cons_ne_nil, hs, List.cons.injEq, true_and, getScheme, getSchemeLoop]
    simp [hsuf, hcut, toLower, hslash, hss, cut, setPath, unescape, unescapeCheck]
  · unfold parse at h
    rw [if_neg hstar] at h
    split_ifs at h with h1 h2
    cases hg : getScheme b with
    | error e => simp [hg] at h
    | ok sr =>
      obtain ⟨scheme, rest0⟩ := sr
      have hext : 63 ∉ rest0 ∧
          getScheme (b ++ 63 :: qs) = .ok (scheme, rest0 ++ 63 :: qs) := by
        rcases getSchemeLoop_extend b qs b 0 (by simp) hb scheme rest0 hg with ⟨e, h0⟩ | h0
        · exact ⟨e ▸ hb, by rw [e]; exact h0⟩
        · exact h0
      obtain ⟨hr, hg2⟩ := hext
      have hctl2 : stringContainsCTLByte (b ++ 63 :: qs) = false := by
        rw [stringContainsCTLByte_append, hctl]
        simpa using h1
      have hstar2 : b ++ 63 :: qs ≠ str "*" := by
        intro e
        have : (63 : Nat) ∈ str "*" := by
          rw [← e]
          simp
        exact absurd this (by decide)
      simp only [hg, hasSuffix_question_of_not_mem rest0 hr, Bool.false_and, Bool.false_eq_true,
        if_false, cut_not_mem rest0 63 hr] at h
      unfold parse
      simp only [hctl2, Bool.false_eq_true, if_false, if_neg hstar2, hg2,
        hasSuffix_question_false rest0 qs hne hq, Bool.false_and, cut_append rest0 qs 63 hr,
        List.append_eq_nil, false_and, and_false]
      split_ifs at h ⊢ with c1 c2 c3 c4 c5
      · exact ⟨_, rfl⟩
      · split at h
        · exact absurd h (by simp)
        · rename_i user host hp
          exact setPath_ok_of h _
      · exact setPath_ok_of h _
      · exact setPath_ok_of h _

theorem ctl_formEncode (v : Values) : stringContainsCTLByte (63 :: formEncode v) = false := by
  simp only [stringContainsCTLByte, List.any_cons, Bool.or_eq_false_iff, decide_eq_false_iff_not,
    List.any_eq_false, Bool.or_eq_true, decide_eq_true_eq, not_or]
  refine ⟨⟨by omega, by omega⟩, ?_⟩
  intro x hx
  rcases mem_formEncode hx with h | h | h | h | h
  · simp only [isUnreserved, Bool.or_eq_true, Bool.and_eq_true, decide_eq_true_eq] at h
    omega
  all_goals omega

/-- When `url.Parse` accepts a base URL without `?` and `#`, `http.NewRequest` accepts the
query URL `Query` builds from it. -/
theorem NewRequest_queryURL_ok (wiki : Wikimedia) (q : Values) (h63 : 63 ∉ wiki.Options.URL)
    (h35 : 35 ∉ wiki.Options.URL) (u0 : URL) (hp : Parse wiki.Options.URL = .ok u0) :
    ∃ req, NewRequest (str "GET") (queryURL wiki q) = .ok req := by
  have hurl : queryURL wiki q =
      wiki.Options.URL ++ 63 :: formEncode (q.set (str "format") [str "json"]) := by
    rw [queryURL, Encode_eq_formEncode]
    have hstr : str "?" = [63] := by decide
    rw [hstr]
    simp
  have hparse : ∃ u, parse wiki.Options.URL false = .ok u := by
    unfold Parse at hp
    rw [cut_not_mem _ _ h35] at hp
    cases hq : parse wiki.Options.URL false with
    | error e => simp [hq] at hp
    | ok u => exact ⟨u, rfl⟩
  obtain ⟨u1, hu1⟩ := hparse
  obtain ⟨u, hu⟩ := parse_extend wiki.Options.URL _ h63 (formEncode_set_ne_nil q)
    (question_not_mem_formEncode _) (ctl_formEncode _) u1 hu1
  have h35b : 35 ∉ wiki.Options.URL ++ 63 :: formEncode (q.set (str "format") [str "json"]) := by
    simp only [List.mem_append, List.mem_cons, not_or]
    exact ⟨h35, by decide, hash_not_mem_formEncode _⟩
  rw [NewRequest_GET, hurl]
  unfold Parse
  rw [cut_not_mem _ _ h35b]
  simp only [hu, if_true]
  exact ⟨_, rfl⟩

/-- Once `NewRequest` has built a request, the calls of `Query` start with it and with the
call of the transport. -/
theorem Query_events_of_request {w : World} {wiki : Wikimedia} {q : Values} {req0 : Request}
    (hreq : NewRequest (str "GET") (queryURL wiki q) = .ok req0) :
    ∃ events, (Query w wiki (some q)).1 =
      .newRequest (str "GET") (queryURL wiki q) ::
        .clientDo wiki.Options.Client.isSome (sentRequest wiki req0) :: events := by
  rw [Query_of_request hreq]
  rcases transportOf w wiki (sentRequest wiki req0) with ⟨resp, err⟩
  cases resp with
  | none => cases err <;> exact ⟨_, rfl⟩
  | some resp1 =>
    cases err with
    | some e => exact ⟨_, rfl⟩
    | none => cases hd : decodeBody w resp1.Body <;> simp only [hd] <;> exact ⟨_, rfl⟩

/-- C2, amended: the URL `Query` dispatches is the base URL, `?` and a text in which exactly
one pair has the key `format`, with the value `json`, whatever the map held under `format`
(nothing, one value or several) before the call.  When the base URL has neither `?` nor `#`,
that text is the query string of the URL of every request handed to the transport, so the
query string has exactly one pair with the key `format`, with the value `json`; and when
`url.Parse` accepts that base URL, as `New` requires, such a request is handed over. -/
theorem query_sends_format_json_exactly_once (w : World) (wiki : Wikimedia) (q : Values) :
    (∃ qs events,
      (Query w wiki (some q)).1 =
        .newRequest (str "GET") (wiki.Options.URL ++ str "?" ++ qs) :: events ∧
      (queryPairs qs).filter (fun p => decide (p.1 = str "format")) =
        [(str "format", str "json")]) ∧
    (63 ∉ wiki.Options.URL → 35 ∉ wiki.Options.URL →
      (∀ custom req, Event.clientDo custom req ∈ (Query w wiki (some q)).1 →
        (queryPairs req.URL.RawQuery).filter (fun p => decide (p.1 = str "format")) =
          [(str "format", str "json")]) ∧
      ((∃ u, Parse wiki.Options.URL = .ok u) →
        ∃ req events, (Query w wiki (some q)).1 =
          .newRequest (str "GET") (queryURL wiki q) ::
            .clientDo wiki.Options.Client.isSome req :: events)) := by
  constructor
  · obtain ⟨events, h⟩ := Query_events_head w wiki q
    refine ⟨formEncode (q.set (str "format") [str "json"]), events, ?_, ?_⟩
    · rw [h, queryURL, Encode_eq_formEncode]
    · exact format_pairs_formEncode q
  · intro h63 h35
    constructor
    · intro custom req hmem
      obtain ⟨req0, hreq, rfl⟩ := Query_clientDo_mem hmem
      obtain ⟨u, hu, hraw⟩ := NewRequest_RawQuery hreq
      have hurl : queryURL wiki q =
          wiki.Options.URL ++ 63 :: formEncode (q.set (str "format") [str "json"]) := by
        rw [queryURL, Encode_eq_formEncode]
        have hstr : str "?" = [63] := by decide
        rw [hstr]
        simp
      rw [hurl] at hu
      rw [sentRequest_URL, hraw,
        Parse_RawQuery _ _ h63 h35 (formEncode_set_ne_nil q) (question_not_mem_formEncode _)
          (hash_not_mem_formEncode _) u hu]
      exact format_pairs_formEncode q
    · rintro ⟨u0, hu0⟩
      obtain ⟨req0, hreq⟩ := NewRequest_queryURL_ok wiki q h63 h35 u0 hu0
      obtain ⟨events, he⟩ := Query_events_of_request hreq
      exact ⟨_, events, he⟩


/-- C2, as stated, fails for a client whose base URL has a query or a fragment of its own.
`New` accepts `https://x/api.php?a=1`, and for the map `{"titles": ["Google"]}` the request
handed to the transport has the query string `a=1?format=json&titles=Google`, whose pairs are
`a` and `titles`: none has the key `format`.  `New` accepts `https://x/api.php#top` too, and
there the request has an empty query string, the parameters being part of the fragment. -/
theorem query_base_url_query_hides_format :
    (New [queryBaseOptions]).2 = none ∧
    (New [queryBaseOptions]).1.map
        (fun wiki => (Query failingWorld wiki (some titlesGoogle)).1) =
      some [.newRequest (str "GET") (str "https://x/api.php?a=1?format=json&titles=Google"),
            .clientDo false
              { Method := str "GET",
                URL := { Scheme := str "https", Host := str "x", Path := str "/api.php",
                         RawQuery := str "a=1?format=json&titles=Google" },
                Header := [],
                Host := str "x" }] ∧
    queryPairs (str "a=1?format=json&titles=Google") =
      [(str "a", str "1?format=json"), (str "titles", str "Google")] ∧
    (New [fragmentBaseOptions]).2 = none ∧
    (New [fragmentBaseOptions]).1.map
        (fun wiki => (Query failingWorld wiki (some titlesGoogle)).1) =
      some [.newRequest (str "GET") (str "https://x/api.php#top?format=json&titles=Google"),
            .clientDo false
              { Method := str "GET",
                URL := { Scheme := str "https", Host := str "x", Path := str "/api.php",
                         Fragment := str "top?format=json&titles=Google" },
                Header := [],
                Host := str "x" }] ∧
    queryPairs [] = [] := by
  decide

/-- The keys of a map after `v[k] = vs`, sorted: the keys before `k`, `k`, the keys after. -/
theorem sortStrings_keys_set (v : Values) (k : GoString) (vs : List GoString) :
    sortStrings (v.set k vs).keys = keysBefore v k ++ [k] ++ keysAfter v k := by
  apply sortStrings_unique
  · -- the same keys
    rw [keys_set]
    have h1 : (keysBefore v k ++ [k] ++ keysAfter v k).Perm
        (k :: (keysBefore v k ++ keysAfter v k)) := by
      rw [List.append_assoc]
      exact List.perm_middle
    refine h1.trans (List.Perm.cons k ?_)
    have h2 : (keysBefore v k ++ keysAfter v k).Perm
        ((v.keys.filter fun x => stringLE x k && decide (x ≠ k)) ++
          (v.keys.filter fun x => !stringLE x k)) :=
      List.Perm.append (sortStrings_perm _) (sortStrings_perm _)
    refine h2.trans ?_
    have h3 := List.filter_append_perm (fun x => stringLE x k)
      (v.keys.filter fun x => decide (x ≠ k))
    rw [List.filter_filter, List.filter_filter] at h3
    have e1 : (v.keys.filter fun x => stringLE x k && decide (x ≠ k)) =
        v.keys.filter (fun a => stringLE a k && decide (a ≠ k)) := rfl
    have e2 : (v.keys.filter fun x => !stringLE x k) =
        v.keys.filter (fun a => (!stringLE a k) && decide (a ≠ k)) := by
      apply List.filter_congr
      intro x _
      by_cases hx : x = k
      · subst hx
        simp [stringLE_refl]
      · simp [hx]
    rw [e2]
    exact h3
  · -- in ascending order
    have hb := sortStrings_sorted (v.keys.filter fun x => stringLE x k && decide (x ≠ k))
    have ha := sortStrings_sorted (v.keys.filter fun x => !stringLE x k)
    have hbk : ∀ x ∈ keysBefore v k, stringLE x k = true := by
      intro x hx
      have := (sortStrings_perm _).mem_iff.mp hx
      simp only [List.mem_filter, Bool.and_eq_true] at this
      exact this.2.1
    have hka : ∀ x ∈ keysAfter v k, stringLE k x = true := by
      intro x hx
      have := (sortStrings_perm _).mem_iff.mp hx
      simp only [List.mem_filter, Bool.not_eq_true'] at this
      rcases stringLE_total k x with h | h
      · exact h
      · rw [this.2] at h
        exact absurd h (by simp)
    unfold List.Sorted
    rw [List.append_assoc, List.pairwise_append]
    refine ⟨hb, ?_, ?_⟩
    · rw [List.singleton_append, List.pairwise_cons]
      exact ⟨hka, ha⟩
    · intro x hx y hy
      simp only [List.singleton_append, List.mem_cons] at hy
      rcases hy with rfl | hy
      · exact hbk x hx
      · exact stringLE_trans (hbk x hx) (hka y hy)

theorem encodedPairsOf_append (v : Values) (a b : List GoString) :
    encodedPairsOf v (a ++ b) = encodedPairsOf v a ++ encodedPairsOf v b := by
  simp [encodedPairsOf, List.flatMap_append]

theorem encodedPairsOf_congr (v v2 : Values) (l : List GoString)
    (h : ∀ x ∈ l, v.get x = v2.get x) : encodedPairsOf v l = encodedPairsOf v2 l := by
  induction l with
  | nil => rfl
  | cons x t ih =>
    simp only [encodedPairsOf, List.flatMap_cons] at ih ⊢
    rw [h x (List.mem_cons_self _ _), ih (fun y hy => h y (List.mem_cons_of_mem _ hy))]

theorem not_mem_keysBefore (v : Values) (k : GoString) : k ∉ keysBefore v k := by
  intro h
  have := (sortStrings_perm _).mem_iff.mp h
  simp at this

theorem not_mem_keysAfter (v : Values) (k : GoString) : k ∉ keysAfter v k := by
  intro h
  have := (sortStrings_perm _).mem_iff.mp h
  simp [stringLE_refl] at this

theorem encodedPair_format_json : encodedPair (str "format") (str "json") = str "format=json" := by
  decide

/-- C4, as stated, fails: for the map `{"titles": ["Google"]}` the URL `Query` dispatches is
`...api.php?format=json&titles=Google`, which does not end in `&format=json`; and for the
empty map it is `...api.php?format=json`, with no `&` before the pair. -/
theorem query_url_format_not_last :
    (Query failingWorld wikipedia (some titlesGoogle)).1.head? =
      some (.newRequest (str "GET")
        (str "https://en.wikipedia.org/w/api.php?format=json&titles=Google")) ∧
    hasSuffix (str "https://en.wikipedia.org/w/api.php?format=json&titles=Google")
      (str "&format=json") = false ∧
    (Query failingWorld wikipedia (some emptyValues)).1.head? =
      some (.newRequest (str "GET") (str "https://en.wikipedia.org/w/api.php?format=json")) ∧
    hasSuffix (str "https://en.wikipedia.org/w/api.php?format=json") (str "&format=json") =
      false := by
  decide

/-- C4, amended: the URL `Query` dispatches is the base URL, `?`, and the pairs joined by `&`
in ascending order of their keys: the encoded pairs of the caller's keys that sort before
`format`, then `format=json`, then the encoded pairs of the caller's keys that sort after
`format`.  (A caller's own `format` entry is in neither group.) -/
theorem query_url_format_pair_in_key_order (w : World) (wiki : Wikimedia) (q : Values) :
    ∃ events, (Query w wiki (some q)).1 =
      .newRequest (str "GET")
        (wiki.Options.URL ++ str "?" ++
          [38].intercalate
            (encodedPairsOf q (keysBefore q (str "format")) ++ [str "format=json"] ++
              encodedPairsOf q (keysAfter q (str "format")))) :: events := by
  obtain ⟨events, h⟩ := Query_events_head w wiki q
  refine ⟨events, ?_⟩
  rw [h, queryURL, Encode_eq_formEncode, formEncode, sortStrings_keys_set,
    encodedPairsOf_append, encodedPairsOf_append]
  have hb : encodedPairsOf (q.set (str "format") [str "json"]) (keysBefore q (str "format")) =
      encodedPairsOf q (keysBefore q (str "format")) :=
    encodedPairsOf_congr _ _ _ fun x hx =>
      get_set_ne _ _ _ _ (fun e => not_mem_keysBefore q _ (e ▸ hx))
  have ha : encodedPairsOf (q.set (str "format") [str "json"]) (keysAfter q (str "format")) =
      encodedPairsOf q (keysAfter q (str "format")) :=
    encodedPairsOf_congr _ _ _ fun x hx =>
      get_set_ne _ _ _ _ (fun e => not_mem_keysAfter q _ (e ▸ hx))
  have hf : encodedPairsOf (q.set (str "format") [str "json"]) [str "format"] =
      [str "format=json"] := by
    simp [encodedPairsOf, get_set_self, encodedPair_format_json]
  rw [hb, ha, hf]

/-- Witness of C2, amended: the client of the tests, whose base URL has neither `?` nor `#`,
with a map that holds two values under `format`. -/
theorem query_sends_format_json_exactly_once_witness :
    (Query failingWorld wikipedia (some formatXmlPhp)).1 =
      [.newRequest (str "GET")
          (str "https://en.wikipedia.org/w/api.php?action=query&format=json"),
       .clientDo false formatXmlPhpRequest] ∧
    (queryPairs formatXmlPhpRequest.URL.RawQuery).filter
        (fun p => decide (p.1 = str "format")) =
      [(str "format", str "json")] :=
  ⟨by decide,
   ((query_sends_format_json_exactly_once failingWorld wikipedia formatXmlPhp).2
      (by decide) (by decide)).1 false formatXmlPhpRequest (by decide)⟩

/-- Witness of C3: the parameter map of the tests. -/
theorem query_url_is_standard_encoding_witness :
    (∃ events, (Query failingWorld wikipedia (some testQuery)).1 =
      .newRequest (str "GET")
        (wikipedia.Options.URL ++ str "?" ++
          formEncode (testQuery.set (str "format") [str "json"])) :: events) ∧
    formEncode (testQuery.set (str "format") [str "json"]) =
      str "action=query&explaintext=1&exsentences=5&format=json&prop=extracts&titles=Google" :=
  ⟨(query_url_is_standard_encoding failingWorld wikipedia testQuery).1, by decide⟩

/-- Witness of C4, amended: the parameter map of the tests, with keys on both sides of
`format`. -/
theorem query_url_format_pair_in_key_order_witness :
    (∃ events, (Query failingWorld wikipedia (some testQuery)).1 =
      .newRequest (str "GET")
        (wikipedia.Options.URL ++ str "?" ++
          [38].intercalate
            (encodedPairsOf testQuery (keysBefore testQuery (str "format")) ++
              [str "format=json"] ++
              encodedPairsOf testQuery (keysAfter testQuery (str "format")))) :: events) ∧
    encodedPairsOf testQuery (keysBefore testQuery (str "format")) =
      [str "action=query", str "explaintext=1", str "exsentences=5"] ∧
    encodedPairsOf testQuery (keysAfter testQuery (str "format")) =
      [str "prop=extracts", str "titles=Google"] :=
  ⟨query_url_format_pair_in_key_order failingWorld wikipedia testQuery, by decide, by decide⟩

end GoWikimedia
